import Mathlib

/-!
# ShazbotCards analytic core — shallow embedding

A shallow embedding in Lean 4 of the analytic/computation layer of the
ShazbotCards repository (`src/js/trends.js`, `src/js/analyzer.js`,
`src/js/cogs.js`, and the CSV parser), together with theorems settling the
frozen specification claims.

Modelling conventions, used consistently below:

* JavaScript numbers are modelled by `ℚ` (the data flowing through these
  functions is decimal CSV data; no floating-point rounding behaviour is
  relevant to the claims except where noted).  A JS value that may be a
  number, `null` or `undefined` is modelled by `JNum`.
* A JS `NaN` produced by arithmetic on `undefined` is modelled by `none`
  in `Option`-valued arithmetic (see the health-score section).
* JS objects used as string-keyed maps are modelled by association lists
  in insertion order; assigning to an existing key updates the entry in
  place, assigning to a fresh key appends (JS object key order; the item
  ids in this application exceed 2^32, so the array-index key reordering
  rule of JS objects does not apply).
* `Array.prototype.sort` (stable in modern engines) is modelled by a
  stable insertion sort `jsSortBy` driven by the sign of the comparator.
-/

/-- A JavaScript value that is a number, `null`, or `undefined`. -/
inductive JNum where
  | num (q : ℚ)
  | null
  | undef
deriving DecidableEq, Repr

/-- JS `x || 0`: `null`, `undefined` (and `0` itself) coerce to `0`. -/
def orZero : JNum → ℚ
  | .num q => q
  | .null => 0
  | .undef => 0

/-- JS `x || 1` (used for quantities): any falsy value, including `0`, gives `1`. -/
def orOne : JNum → ℚ
  | .num q => if q = 0 then 1 else q
  | .null => 1
  | .undef => 1

/-- JS `s || d` for a possibly-missing string: `null`/`undefined`/`""` give `d`. -/
def orStr (d : String) : Option String → String
  | some s => if s = "" then d else s
  | none => d

/-- JS `b || false` for a possibly-missing boolean. -/
def orFalse : Option Bool → Bool
  | some b => b
  | none => false

/-- `trends.js` `pctChange(a, b)`: `null` if either input is null/undefined,
`0` if both are zero, `null` if only the baseline is zero, otherwise
`(b-a)/|a|*100`.  A `null` result is modelled by `none`. -/
def pctChange (a b : JNum) : Option ℚ :=
  match a, b with
  | .num x, .num y =>
    if x = 0 ∧ y = 0 then some 0
    else if x = 0 then none
    else some ((y - x) / |x| * 100)
  | _, _ => none

/-! ### COGS calculator (`src/js/cogs.js`) -/

/-- One shipping method's configuration (`{ label, postage }`). -/
structure ShipMethodCfg where
  label : String
  postage : ℚ
deriving DecidableEq, Repr

/-- `settings.shipping`: the two configured methods and the auto-selection
price threshold. -/
structure ShippingCfg where
  ese : ShipMethodCfg
  ga : ShipMethodCfg
  threshold : ℚ
deriving DecidableEq, Repr

/-- One material row of `settings.materials`. -/
structure Material where
  id : String
  name : String
  packCount : ℕ
  packPrice : ℚ
  unitCost : Option ℚ
  includePerSale : Bool
  methods : Option (List String)
deriving DecidableEq, Repr

/-- The COGS settings record. -/
structure CogsSettings where
  ebayFeeRate : ℚ
  shipping : ShippingCfg
  materials : List Material
deriving DecidableEq, Repr

/-- The input of `calcListing`: `{ price, quantity, shippingOverride }`. -/
structure CogsListing where
  price : JNum
  quantity : JNum
  shippingOverride : Option String
deriving DecidableEq, Repr

/-- The result record of `calcListing`. -/
structure CogsResult where
  shippingMethod : String
  shippingLabel : String
  shippingCost : ℚ
  ebayFee : ℚ
  materialCost : ℚ
  cogs : ℚ
  netProfit : ℚ
  margin : ℚ
  qty : ℚ
  totalNetProfit : ℚ
  totalCogs : ℚ
deriving DecidableEq, Repr

/-- JS `settings.shipping[method]`: the object keys holding method
configurations are exactly `"ese"` and `"ga"`; any other key yields
`undefined` (the numeric `threshold` key is not a method configuration). -/
def shippingLookup (s : ShippingCfg) (method : String) : Option ShipMethodCfg :=
  if method = "ese" then some s.ese
  else if method = "ga" then some s.ga
  else none

/-- `Number.prototype.toFixed(d)` followed by `parseFloat`, modelled as exact
decimal rounding (round half away from zero is irrelevant here; Mathlib's
`round` is round-half-up) on the rational value. -/
def toFixedQ (d : ℕ) (x : ℚ) : ℚ :=
  (round (x * 10 ^ d) : ℤ) / 10 ^ d

/-- `cogs.js` `DEFAULTS`. -/
def cogsDefaults : CogsSettings :=
  { ebayFeeRate := 0.1325
    shipping :=
      { ese := { label := "eBay Std Envelope", postage := 1.03 }
        ga := { label := "Ground Advantage", postage := 5.08 }
        threshold := 20.00 }
    materials :=
      [ { id := "sleeve", name := "Ultra Pro Penny Sleeves", packCount := 500,
          packPrice := 8.58, unitCost := some 0.02, includePerSale := true,
          methods := some ["ese", "ga"] },
        { id := "topldr", name := "Ultra Pro 3x4 Top Loader", packCount := 200,
          packPrice := 33.98, unitCost := some 0.17, includePerSale := true,
          methods := some ["ese", "ga"] },
        { id := "teambag", name := "Team Bags 3x4 (35pt) - DEDC", packCount := 100,
          packPrice := 5.25, unitCost := some 0.05, includePerSale := true,
          methods := some ["ese", "ga"] },
        { id := "env", name := "Ding Defend Shipping Envelopes", packCount := 110,
          packPrice := 24.97, unitCost := some 0.23, includePerSale := true,
          methods := some ["ese"] },
        { id := "bubble", name := "Bubble Mailers 4x7 Poly Padded", packCount := 50,
          packPrice := 9.88, unitCost := some 0.20, includePerSale := true,
          methods := some ["ga"] },
        { id := "hobb", name := "Hobby Armor 3.5x4.5", packCount := 50,
          packPrice := 8.56, unitCost := some 0.17, includePerSale := false,
          methods := some ["ese", "ga"] },
        { id := "graded", name := "Graded Card Sleeves Resealable", packCount := 300,
          packPrice := 7.99, unitCost := some 0.03, includePerSale := false,
          methods := some ["ese", "ga"] } ] }

/-- The first two statements of `calcListing`'s shipping-method selection:
`autoMethod = price > threshold ? "ga" : "ese"`, then
`method = listing.shippingOverride || autoMethod` (a falsy override —
absent or empty — falls back to the threshold rule). -/
def selectedMethod (listing : CogsListing) (settings : CogsSettings) : String :=
  let price := orZero listing.price
  let autoMethod := if settings.shipping.threshold < price then "ga" else "ese"
  match listing.shippingOverride with
  | some s => if s = "" then autoMethod else s
  | none => autoMethod

/-- `cogs.js` `calcListing(listing, settings)`.  The selected method string is
the truthy `shippingOverride` if present, else the threshold rule
(`price > threshold → "ga" else "ese"`).  When the selected method is not a
key of `settings.shipping`, the JS code dereferences `undefined`
(`ship.postage`) and throws a `TypeError`; that crash is modelled by `none`.
The `settings = settings || load()` defaulting reads browser storage and is
outside this core; settings are always passed explicitly here. -/
def calcListing (listing : CogsListing) (settings : CogsSettings) : Option CogsResult :=
  let price := orZero listing.price
  let qty := orOne listing.quantity
  let method := selectedMethod listing settings
  let ebayFee := price * settings.ebayFeeRate
  let materialCost :=
    ((settings.materials.filter (fun m =>
        if !m.includePerSale then false
        else
          match m.methods with
          | some ms => if 0 < ms.length then ms.contains method else true
          | none => true)).map (fun m => m.unitCost.getD 0)).sum
  match shippingLookup settings.shipping method with
  | none => none
  | some ship =>
    let postage := ship.postage
    let cogs := ebayFee + materialCost + postage
    let netProfit := price - cogs
    let margin := if 0 < price then netProfit / price * 100 else 0
    some
      { shippingMethod := method
        shippingLabel := ship.label
        shippingCost := postage
        ebayFee := toFixedQ 4 ebayFee
        materialCost := toFixedQ 4 materialCost
        cogs := toFixedQ 4 cogs
        netProfit := toFixedQ 4 netProfit
        margin := toFixedQ 2 margin
        qty := qty
        totalNetProfit := toFixedQ 4 (netProfit * qty)
        totalCogs := toFixedQ 4 (cogs * qty) }

/-- The concrete listing of the C4 claim: `{price: 25, shippingOverride: "ground"}`. -/
def groundListing : CogsListing :=
  { price := JNum.num 25, quantity := JNum.null, shippingOverride := some "ground" }

/-- A price-25 listing with the valid override `"ese"`. -/
def eseListing : CogsListing :=
  { price := JNum.num 25, quantity := JNum.null, shippingOverride := some "ese" }

/-- A price-25 listing with no override. -/
def autoListing : CogsListing :=
  { price := JNum.num 25, quantity := JNum.null, shippingOverride := none }

/-! ### Generic JS collection helpers -/

/-- One step of stable insertion sort: `x` goes after every leading `y` with
`cmp x y > 0` and before the first `y` with `cmp x y ≤ 0` (JS comparator
semantics: a positive value sorts the first argument later, ties keep the
original order). -/
def jsInsert {α : Type} (cmp : α → α → ℚ) (x : α) : List α → List α
  | [] => [x]
  | y :: ys => if 0 < cmp x y then y :: jsInsert cmp x ys else x :: y :: ys

/-- `Array.prototype.sort(cmp)` as a stable insertion sort. -/
def jsSortBy {α : Type} (cmp : α → α → ℚ) (l : List α) : List α :=
  l.foldr (jsInsert cmp) []

/-- Lookup in a string-keyed association list (JS object property read). -/
def assocGet {α : Type} (m : List (String × α)) (k : String) : Option α :=
  (m.find? (fun p => p.1 == k)).map Prod.snd

/-- JS object property assignment: an existing key is updated in place, a
fresh key is appended (JS string-key insertion order). -/
def assocSet {α : Type} (m : List (String × α)) (k : String) (v : α) :
    List (String × α) :=
  if m.any (fun p => p.1 == k) then m.map (fun p => if p.1 == k then (k, v) else p)
  else m ++ [(k, v)]

/-- `new Set(keys)` iteration order: first occurrence of each key. -/
def dedupKeysFirst (ks : List String) : List String :=
  ks.foldl (fun acc k => if acc.contains k then acc else acc ++ [k]) []

/-! ### Trend engine (`src/js/trends.js`) -/

/-- A listing record as stored in a report (fields read by `trends.js`).
Metric fields may be numbers, `null`, or missing (`undefined`); a missing
or null `itemId` is modelled by `""` (all are falsy in the JS guards). -/
structure RawListing where
  itemId : String
  title : String
  totalImpressions : JNum
  ctr : JNum
  totalPageViews : JNum
  quantitySold : JNum
  healthScore : JNum
  healthBadge : Option String
  isPromoted : Option Bool
  sport : Option String
deriving DecidableEq, Repr

/-- A stored report object.  `uploadedAt` is modelled as the timestamp to
which JS `new Date(uploadedAt)` evaluates, so the snapshot sort comparator
`new Date(a.uploadedAt) - new Date(b.uploadedAt)` is `a - b` on this field.
`data` is `Option` because the code defensively reads `report.data || []`. -/
structure Report where
  id : ℕ
  uploadedAt : ℚ
  filename : String
  reportPeriod : String
  data : Option (List RawListing)
deriving DecidableEq, Repr

/-- `report.data || []`. -/
def dataOf (r : Report) : List RawListing :=
  r.data.getD []

/-- A per-period metric record pushed by `buildListingTimeline`: every field
is coerced to a plain value (`|| 0`, `|| 'red'`, `|| false`, `|| 'Other'`). -/
structure Snapshot where
  reportId : ℕ
  uploadedAt : ℚ
  filename : String
  reportPeriod : String
  totalImpressions : ℚ
  ctr : ℚ
  totalPageViews : ℚ
  quantitySold : ℚ
  healthScore : ℚ
  healthBadge : String
  isPromoted : Bool
  sport : String
deriving DecidableEq, Repr

/-- The snapshot record `buildListingTimeline` pushes for one listing of one
report. -/
def mkSnapshot (report : Report) (l : RawListing) : Snapshot :=
  { reportId := report.id
    uploadedAt := report.uploadedAt
    filename := report.filename
    reportPeriod := report.reportPeriod
    totalImpressions := orZero l.totalImpressions
    ctr := orZero l.ctr
    totalPageViews := orZero l.totalPageViews
    quantitySold := orZero l.quantitySold
    healthScore := orZero l.healthScore
    healthBadge := orStr "red" l.healthBadge
    isPromoted := orFalse l.isPromoted
    sport := orStr "Other" l.sport }

/-- One value of the timeline object: `{ title, itemId, snapshots }`. -/
structure TimelineEntry where
  title : String
  itemId : String
  snapshots : List Snapshot
deriving DecidableEq, Repr

/-- The body of `buildListingTimeline`'s double `forEach`: listings with a
falsy `itemId` are skipped; otherwise the entry is created on first sight
(capturing that listing's title) and the coerced snapshot appended. -/
def timelineStep (report : Report) (tl : List (String × TimelineEntry))
    (l : RawListing) : List (String × TimelineEntry) :=
  if l.itemId = "" then tl
  else
    let entry :=
      match assocGet tl l.itemId with
      | some e => e
      | none => { title := l.title, itemId := l.itemId, snapshots := [] }
    assocSet tl l.itemId
      { entry with snapshots := entry.snapshots ++ [mkSnapshot report l] }

/-- The final pass of `buildListingTimeline`: sort one entry's snapshots
chronologically by `uploadedAt` (the comparator
`new Date(a.uploadedAt) - new Date(b.uploadedAt)`). -/
def sortSnapshots (p : String × TimelineEntry) : String × TimelineEntry :=
  (p.1, { p.2 with
          snapshots := jsSortBy (fun a b => a.uploadedAt - b.uploadedAt) p.2.snapshots })

/-- `trends.js` `buildListingTimeline(reports)`: the timeline object keyed by
`itemId`, each entry's snapshots finally sorted chronologically by
`uploadedAt`. -/
def buildListingTimeline (reports : List Report) : List (String × TimelineEntry) :=
  let tl := reports.foldl (fun tl report => (dataOf report).foldl (timelineStep report) tl) []
  tl.map sortSnapshots

/-- The record returned by `computeListingChange`. -/
structure ListingChange where
  impressionsChange : Option ℚ
  ctrChange : Option ℚ
  pageViewsChange : Option ℚ
  soldChange : Option ℚ
  healthScoreChange : ℚ
  prevHealthBadge : String
  currHealthBadge : String
  isNewIssue : Bool
  isDeclined : Bool
  prevSnap : Snapshot
  currSnap : Snapshot
deriving DecidableEq, Repr

/-- The record `computeListingChange` returns for a previous and a current
snapshot (`trends.js` lines 75-90). -/
def mkListingChange (prev curr : Snapshot) : ListingChange :=
  { impressionsChange := pctChange (.num prev.totalImpressions) (.num curr.totalImpressions)
    ctrChange := pctChange (.num prev.ctr) (.num curr.ctr)
    pageViewsChange := pctChange (.num prev.totalPageViews) (.num curr.totalPageViews)
    soldChange := pctChange (.num prev.quantitySold) (.num curr.quantitySold)
    healthScoreChange := curr.healthScore - prev.healthScore
    prevHealthBadge := prev.healthBadge
    currHealthBadge := curr.healthBadge
    isNewIssue := prev.healthBadge ≠ "red" ∧ curr.healthBadge = "red"
    isDeclined :=
      (prev.healthBadge = "green" ∧ curr.healthBadge ≠ "green") ∨
      (prev.healthBadge = "yellow" ∧ curr.healthBadge = "red")
    prevSnap := prev
    currSnap := curr }

/-- `trends.js` `computeListingChange(timelineEntry)`: `null` for fewer than
two snapshots, else the change record computed from `snaps[len-2]` and
`snaps[len-1]` only.  Timeline snapshots carry plain (coerced) numbers, so
the percent-change inputs are always `num` values here. -/
def computeListingChange (entry : TimelineEntry) : Option ListingChange :=
  let snaps := entry.snapshots
  if h : snaps.length < 2 then none
  else
    let prev := snaps.get ⟨snaps.length - 2, by omega⟩
    let curr := snaps.get ⟨snaps.length - 1, by omega⟩
    some (mkListingChange prev curr)

/-- The C6 scenario's earlier snapshot: impressions 100, badge green. -/
def scenarioSnapPrev : Snapshot :=
  { reportId := 1, uploadedAt := 0, filename := "week1.csv", reportPeriod := ""
    totalImpressions := 100, ctr := 0, totalPageViews := 0, quantitySold := 0
    healthScore := 70, healthBadge := "green", isPromoted := false, sport := "Other" }

/-- The C6 scenario's later snapshot: impressions 50, badge yellow. -/
def scenarioSnapCurr : Snapshot :=
  { reportId := 2, uploadedAt := 1, filename := "week2.csv", reportPeriod := ""
    totalImpressions := 50, ctr := 0, totalPageViews := 0, quantitySold := 0
    healthScore := 40, healthBadge := "yellow", isPromoted := false, sport := "Other" }

/-- The C6 scenario's timeline entry (two snapshots). -/
def scenarioEntry : TimelineEntry :=
  { title := "Example card", itemId := "358228910357"
    snapshots := [scenarioSnapPrev, scenarioSnapCurr] }

/-- The `r1`/`r2` sub-records of a comparison row (coerced metric fields). -/
structure CmpSide where
  totalImpressions : ℚ
  ctr : ℚ
  totalPageViews : ℚ
  quantitySold : ℚ
  healthScore : ℚ
  healthBadge : String
deriving DecidableEq, Repr

/-- The coerced side record built from a present listing. -/
def mkCmpSide (l : RawListing) : CmpSide :=
  { totalImpressions := orZero l.totalImpressions
    ctr := orZero l.ctr
    totalPageViews := orZero l.totalPageViews
    quantitySold := orZero l.quantitySold
    healthScore := orZero l.healthScore
    healthBadge := orStr "red" l.healthBadge }

/-- One row of `buildComparison`'s output. -/
structure CmpRow where
  itemId : String
  title : String
  r1 : Option CmpSide
  r2 : Option CmpSide
  impressionsChange : Option ℚ
  isNew : Bool
  isDelisted : Bool
deriving DecidableEq, Repr

/-- `map1`/`map2` of `buildComparison`: listings keyed by truthy `itemId`,
later duplicates overwriting earlier ones. -/
def buildMap (data : List RawListing) : List (String × RawListing) :=
  data.foldl (fun m l => if l.itemId = "" then m else assocSet m l.itemId l) []

/-- The row `buildComparison` pushes for one id of `allIds`. -/
def cmpRowOf (map1 map2 : List (String × RawListing)) (id : String) : CmpRow :=
  let l1 := assocGet map1 id
  let l2 := assocGet map2 id
  { itemId := id
    title :=
      match l2 with
      | some l => l.title
      | none => match l1 with
                | some l => l.title
                | none => ""
    r1 := l1.map mkCmpSide
    r2 := l2.map mkCmpSide
    impressionsChange :=
      pctChange
        (match l1 with | some l => .num (orZero l.totalImpressions) | none => .null)
        (match l2 with | some l => .num (orZero l.totalImpressions) | none => .null)
    isNew := l1.isNone && l2.isSome
    isDelisted := l1.isSome && l2.isNone }

/-- `buildComparison`'s sort comparator: new rows last, then delisted rows,
then by `|impressionsChange || 0|` descending. -/
def cmpRowCmp (a b : CmpRow) : ℚ :=
  if a.isNew ≠ b.isNew then (if a.isNew then 1 else -1)
  else if a.isDelisted ≠ b.isDelisted then (if a.isDelisted then 1 else -1)
  else |b.impressionsChange.getD 0| - |a.impressionsChange.getD 0|

/-- `trends.js` `buildComparison(report1, report2)`: `[]` when either report
is falsy; otherwise the full outer join on truthy `itemId`, one row per id
in `new Set([...keys1, ...keys2])` order, sorted by `cmpRowCmp`. -/
def buildComparison (report1 report2 : Option Report) : List CmpRow :=
  match report1, report2 with
  | some r1, some r2 =>
    let map1 := buildMap (dataOf r1)
    let map2 := buildMap (dataOf r2)
    let allIds := dedupKeysFirst (map1.map Prod.fst ++ map2.map Prod.fst)
    jsSortBy cmpRowCmp (allIds.map (cmpRowOf map1 map2))
  | _, _ => []

/-- Classification rank of a comparison row: continuing 0, delisted 1, new 2
(the order in which `cmpRowCmp` sorts the classes). -/
def rowRank (row : CmpRow) : ℕ :=
  if row.isNew then 2 else if row.isDelisted then 1 else 0

/-- The ordering the comparator actually implements: by class rank
(continuing, then delisted, then new), and inside one class by absolute
impressions change descending. -/
def rowOrder (a b : CmpRow) : Prop :=
  rowRank a < rowRank b ∨
    (rowRank a = rowRank b ∧ |b.impressionsChange.getD 0| ≤ |a.impressionsChange.getD 0|)

/-- Presence of an item id in a report's data: some listing with a truthy
`itemId` equal to `id` (the join predicate of the trend engine). -/
def hasItem (r : Report) (id : String) : Prop :=
  id ≠ "" ∧ ∃ l ∈ dataOf r, l.itemId = id

instance (r : Report) (id : String) : Decidable (hasItem r id) := by
  unfold hasItem
  infer_instance

/-- A listing present only in the first comparison report (will be delisted). -/
def cmpListingA : RawListing :=
  { itemId := "900000000001", title := "Old card", totalImpressions := JNum.null
    ctr := JNum.null, totalPageViews := JNum.null, quantitySold := JNum.null
    healthScore := JNum.null, healthBadge := none, isPromoted := none, sport := none }

/-- A listing present only in the second comparison report (new). -/
def cmpListingB : RawListing :=
  { itemId := "900000000002", title := "New card", totalImpressions := JNum.null
    ctr := JNum.null, totalPageViews := JNum.null, quantitySold := JNum.null
    healthScore := JNum.null, healthBadge := none, isPromoted := none, sport := none }

/-- First comparison report: only `cmpListingA`. -/
def cmpReportA : Report :=
  { id := 1, uploadedAt := 0, filename := "week1.csv", reportPeriod := ""
    data := some [cmpListingA] }

/-- Second comparison report: only `cmpListingB`. -/
def cmpReportB : Report :=
  { id := 2, uploadedAt := 1, filename := "week2.csv", reportPeriod := ""
    data := some [cmpListingB] }

/-- The per-entry invariant of the timeline object: the key is a truthy item
id, the entry records that id, and every stored snapshot is the fully
coerced record (`mkSnapshot`) of some listing with that id in some report. -/
def timelineEntryInv (reports : List Report) (p : String × TimelineEntry) : Prop :=
  p.1 ≠ "" ∧ p.2.itemId = p.1 ∧
  ∀ snap ∈ p.2.snapshots, ∃ r ∈ reports, ∃ l ∈ dataOf r,
    l.itemId = p.1 ∧ snap = mkSnapshot r l

/-- The timeline entry produced for `cmpReportA` (used as a concrete witness). -/
def timelineEntryEx : String × TimelineEntry :=
  ("900000000001", { title := "Old card", itemId := "900000000001",
                     snapshots := [mkSnapshot cmpReportA cmpListingA] })

/-! ### Keyword analyzer (`keywordAnalyzer.js`, bundled in `src/js/analyzer.js`) -/

/-- The split delimiters of `extractKeywords`: whitespace, comma, dash,
parentheses, slash, pipe (the regex `[\s,\-\(\)\/\|]+`). -/
def isSepChar (c : Char) : Bool :=
  c.isWhitespace || c == ',' || c == '-' || c == '(' || c == ')' || c == '/' || c == '|'

/-- A lowercase-alphanumeric character (the regex class `[a-z0-9]`). -/
def isLowerAlnum (c : Char) : Bool :=
  decide (('a' ≤ c ∧ c ≤ 'z') ∨ ('0' ≤ c ∧ c ≤ '9'))

/-- `String.prototype.split` on a `+`-quantified character class: a run of
separators ends the current (possibly empty) token; `inGap` records that the
previous character was part of a separator run already flushed. -/
def splitSepsAux : List Char → Bool → List Char → List (List Char)
  | [], _, cur => [cur.reverse]
  | c :: rest, inGap, cur =>
    if isSepChar c then
      if inGap then splitSepsAux rest true []
      else cur.reverse :: splitSepsAux rest true []
    else splitSepsAux rest false (c :: cur)

/-- Split a character list on separator runs (`title.split(/[\s,\-\(\)\/\|]+/)`). -/
def splitSeps (cs : List Char) : List (List Char) :=
  splitSepsAux cs false []

/-- `String.prototype.trim` on a token (whitespace at both ends). -/
def trimChars (cs : List Char) : List Char :=
  ((cs.dropWhile Char.isWhitespace).reverse.dropWhile Char.isWhitespace).reverse

/-- Strip leading and trailing non-`[a-z0-9]` characters
(the regex replace `^[^a-z0-9]+|[^a-z0-9]+$` → `""`). -/
def stripEnds (cs : List Char) : List Char :=
  ((cs.dropWhile (fun c => !isLowerAlnum c)).reverse.dropWhile
    (fun c => !isLowerAlnum c)).reverse

/-- The `STOP_WORDS` set. -/
def stopWords : List String :=
  ["the", "a", "an", "and", "or", "but", "in", "on", "at", "to", "for",
   "of", "with", "from", "card", "cards", "nfl", "mlb", "nba", "panini",
   "topps", "prizm", "mosaic", "rookie", "rc"]

/-- `keywordAnalyzer.js` `extractKeywords(title)`: `[]` for a falsy title,
else split on delimiters, lowercase (ASCII, as the card titles are) and
trim, keep tokens containing an alphanumeric character, strip
non-alphanumeric ends, drop empties and stop words. -/
def extractKeywords (title : String) : List String :=
  if title = "" then []
  else
    (((((splitSeps title.data).map (fun t => trimChars (t.map Char.toLower))).filter
        (fun t => 0 < t.length && t.any isLowerAlnum)).map stripEnds).filter
      (fun t => 0 < t.length)).map String.mk
    |>.filter (fun t => !stopWords.contains t)

/-- The listing fields `analyzeKeywords` reads. -/
structure KwListing where
  title : String
  totalImpressions : JNum
  ctr : JNum
  totalPageViews : JNum
  quantitySold : JNum
  healthScore : JNum
deriving DecidableEq, Repr

/-- The per-keyword accumulator entry of `analyzeKeywords`'s map. -/
structure KwAcc where
  keyword : String
  appearances : ℕ
  totalImpressions : ℚ
  totalPageViews : ℚ
  totalCTRWeighted : ℚ
  totalCTRImpressions : ℚ
  totalSold : ℚ
  totalHealthScore : ℚ
deriving DecidableEq, Repr

/-- The derived per-keyword result record of `analyzeKeywords`. -/
structure KwResult where
  keyword : String
  appearances : ℕ
  totalImpressions : ℚ
  avgImpressions : ℚ
  totalPageViews : ℚ
  avgCTR : ℚ
  totalSold : ℚ
  conversionRate : Option ℚ
  avgHealthScore : ℚ
deriving DecidableEq, Repr

/-- A fresh map entry for a keyword (all totals zero). -/
def kwInit (kw : String) : KwAcc :=
  { keyword := kw, appearances := 0, totalImpressions := 0, totalPageViews := 0,
    totalCTRWeighted := 0, totalCTRImpressions := 0, totalSold := 0,
    totalHealthScore := 0 }

/-- The accumulation `analyzeKeywords` performs for one keyword of one
listing: bump `appearances` by one, add the coerced totals, and add the
impression-weighted CTR terms when `ctr` is neither null nor undefined. -/
def kwBump (l : KwListing) (e : KwAcc) : KwAcc :=
  let e1 :=
    { e with
      appearances := e.appearances + 1
      totalImpressions := e.totalImpressions + orZero l.totalImpressions
      totalPageViews := e.totalPageViews + orZero l.totalPageViews
      totalSold := e.totalSold + orZero l.quantitySold
      totalHealthScore := e.totalHealthScore + orZero l.healthScore }
  match l.ctr with
  | .num c =>
    { e1 with
      totalCTRWeighted := e1.totalCTRWeighted + c * orZero l.totalImpressions
      totalCTRImpressions := e1.totalCTRImpressions + orZero l.totalImpressions }
  | _ => e1

/-- The body of the inner `keywords.forEach`: skip a keyword already in this
listing's `seen` set, else record it and accumulate into the map. -/
def kwStep (l : KwListing) (st : List (String × KwAcc) × List String) (kw : String) :
    List (String × KwAcc) × List String :=
  if st.2.contains kw then st
  else
    (assocSet st.1 kw (kwBump l ((assocGet st.1 kw).getD (kwInit kw))), kw :: st.2)

/-- Process one listing: fold its extracted keywords with a fresh `seen` set. -/
def processListing (m : List (String × KwAcc)) (l : KwListing) :
    List (String × KwAcc) :=
  ((extractKeywords l.title).foldl (kwStep l) (m, [])).1

/-- The derivation step building one result record from a map entry
(`avgImpressions`, weighted `avgCTR`, nullable `conversionRate`,
`avgHealthScore`). -/
def finishKw (e : KwAcc) : KwResult :=
  { keyword := e.keyword
    appearances := e.appearances
    totalImpressions := e.totalImpressions
    avgImpressions :=
      if 0 < e.appearances then e.totalImpressions / (e.appearances : ℚ) else 0
    totalPageViews := e.totalPageViews
    avgCTR :=
      if 0 < e.totalCTRImpressions then e.totalCTRWeighted / e.totalCTRImpressions else 0
    totalSold := e.totalSold
    conversionRate :=
      if 0 < e.totalPageViews then some (e.totalSold / e.totalPageViews * 100) else none
    avgHealthScore :=
      if 0 < e.appearances then e.totalHealthScore / (e.appearances : ℚ) else 0 }

/-- `keywordAnalyzer.js` `analyzeKeywords(listings)`: `[]` for an empty or
missing collection, else the per-keyword aggregation over all listings,
derived and sorted by `totalImpressions` descending. -/
def analyzeKeywords (listings : List KwListing) : List KwResult :=
  if listings.isEmpty then []
  else
    let m := listings.foldl processListing []
    let results := m.map (fun p => finishKw p.2)
    jsSortBy (fun a b => b.totalImpressions - a.totalImpressions) results

/-- The C8 example listing: a title with the token `PSA` repeated. -/
def psaListing : KwListing :=
  { title := "PSA PSA 10", totalImpressions := JNum.null, ctr := JNum.null
    totalPageViews := JNum.null, quantitySold := JNum.null, healthScore := JNum.null }

/-! ### CSV parser (`csvParser.js`) -/

/-- `csvText.split(/\r?\n/)`: split on `\n` or `\r\n` (a lone `\r` is kept). -/
def splitLinesJS : List Char → List (List Char)
  | [] => [[]]
  | '\r' :: '\n' :: rest => [] :: splitLinesJS rest
  | '\n' :: rest => [] :: splitLinesJS rest
  | c :: rest =>
    match splitLinesJS rest with
    | [] => [[c]]
    | l :: ls => (c :: l) :: ls

/-- The quoted-field state machine of `parseLine`, accumulating the current
field and the fields so far (both reversed). -/
def parseLineAux : List Char → Bool → List Char → List (List Char) → List (List Char)
  | [], _, cur, fields => (cur.reverse :: fields).reverse
  | '"' :: '"' :: rest2, true, cur, fields => parseLineAux rest2 true ('"' :: cur) fields
  | '"' :: rest, true, cur, fields => parseLineAux rest false cur fields
  | '"' :: rest, false, cur, fields => parseLineAux rest true cur fields
  | ',' :: rest, inQ, cur, fields =>
    if inQ then parseLineAux rest inQ (',' :: cur) fields
    else parseLineAux rest inQ [] (cur.reverse :: fields)
  | c :: rest, inQ, cur, fields => parseLineAux rest inQ (c :: cur) fields

/-- `csvParser.js` `parseLine(line)`: split a CSV line on unquoted commas;
`""` inside quotes is an escaped quote. -/
def parseLine (cs : List Char) : List (List Char) :=
  parseLineAux cs false [] []

/-- The regex match `^="(.*)"$` (fields contain no newline, so `.` is any
character here). -/
def matchIdQuoted (s : List Char) : Option (List Char) :=
  match s with
  | '=' :: '"' :: rest =>
    if rest ≠ [] ∧ rest.getLast? = some '"' then some rest.dropLast else none
  | _ => none

/-- The regex match `^=(\d+)$`. -/
def matchIdDigits (s : List Char) : Option (List Char) :=
  match s with
  | '=' :: rest => if rest ≠ [] ∧ rest.all Char.isDigit then some rest else none
  | _ => none

/-- `csvParser.js` `cleanValue(raw)`: `null` stays `null` (also for an absent
cell, i.e. `undefined`), blank and `"-"` become `null`, the eBay
`="..."`/`=digits` id wrappers are stripped, anything else is the trimmed
string. -/
def cleanValue (raw : Option String) : Option String :=
  match raw with
  | none => none
  | some r =>
    let s := trimChars r.data
    if s.isEmpty ∨ s = ['-'] then none
    else
      match matchIdQuoted s with
      | some inner => some (String.mk inner)
      | none =>
        match matchIdDigits s with
        | some inner => some (String.mk inner)
        | none => some (String.mk s)

/-- The value of a digit run (used by the `parseInt`/`parseFloat` models). -/
def digitsVal (ds : List Char) : ℕ :=
  ds.foldl (fun n c => 10 * n + (c.toNat - 48)) 0

/-- `parseInt(s, 10)`: optional sign, then the longest digit prefix;
`NaN` (modelled `none`) when no digit follows. -/
def parseIntJS (cs : List Char) : Option ℤ :=
  let cs := cs.dropWhile Char.isWhitespace
  match cs with
  | '-' :: rest =>
    let ds := rest.takeWhile Char.isDigit
    if ds.isEmpty then none else some (-(digitsVal ds : ℤ))
  | '+' :: rest =>
    let ds := rest.takeWhile Char.isDigit
    if ds.isEmpty then none else some ((digitsVal ds : ℤ))
  | _ =>
    let ds := cs.takeWhile Char.isDigit
    if ds.isEmpty then none else some ((digitsVal ds : ℤ))

/-- `parseFloat(s)`: optional sign, decimal mantissa (at least one digit),
optional exponent (ignored unless digits follow); `NaN` is `none`. -/
def parseFloatJS (cs : List Char) : Option ℚ :=
  let cs0 := cs.dropWhile Char.isWhitespace
  let sgn : ℚ := match cs0 with | '-' :: _ => -1 | _ => 1
  let cs1 := match cs0 with | '-' :: rest => rest | '+' :: rest => rest | _ => cs0
  let ip := cs1.takeWhile Char.isDigit
  let cs2 := cs1.dropWhile Char.isDigit
  let fp := match cs2 with | '.' :: rest => rest.takeWhile Char.isDigit | _ => []
  let cs3 := match cs2 with | '.' :: rest => rest.dropWhile Char.isDigit | _ => cs2
  if ip.isEmpty ∧ fp.isEmpty then none
  else
    let mant : ℚ := (digitsVal ip : ℚ) + (digitsVal fp : ℚ) / (10 : ℚ) ^ fp.length
    let e : ℤ :=
      match cs3 with
      | c :: rest =>
        if c == 'e' || c == 'E' then
          match rest with
          | '-' :: r2 =>
            let ds := r2.takeWhile Char.isDigit
            if ds.isEmpty then 0 else -(digitsVal ds : ℤ)
          | '+' :: r2 =>
            let ds := r2.takeWhile Char.isDigit
            if ds.isEmpty then 0 else (digitsVal ds : ℤ)
          | _ =>
            let ds := rest.takeWhile Char.isDigit
            if ds.isEmpty then 0 else (digitsVal ds : ℤ)
        else 0
      | [] => 0
    some (sgn * mant * (10 : ℚ) ^ e)

/-- `csvParser.js` `parsePercent(raw)`: `null` for blank or `"-"`, else
`parseFloat` after removing commas and `%`, `null` when that is `NaN`. -/
def parsePercent (raw : Option String) : Option ℚ :=
  let s := trimChars (raw.getD "").data
  if s.isEmpty ∨ s = ['-'] then none
  else parseFloatJS ((s.filter (fun c => !(c == ','))).filter (fun c => !(c == '%')))

/-- `csvParser.js` `parseInteger(raw)`: `null` for blank or `"-"`, else
`parseInt` base 10 after removing commas, `null` when that is `NaN`. -/
def parseIntegerJS (raw : Option String) : Option ℤ :=
  let s := trimChars (raw.getD "").data
  if s.isEmpty ∨ s = ['-'] then none
  else parseIntJS (s.filter (fun c => !(c == ',')))

/-- The typed listing record `buildListing` produces (one field per column
group of the eBay Traffic Report). -/
structure ParsedListing where
  title : String
  itemId : String
  startDate : String
  category : String
  promotedStatus : String
  isPromoted : Bool
  quantityAvailable : Option ℤ
  totalImpressions : Option ℤ
  ctr : Option ℚ
  quantitySold : Option ℤ
  top20Pct : Option ℚ
  conversionRate : Option ℚ
  top20PromotedImpressions : Option ℤ
  top20PromotedChangePct : Option ℚ
  top20OrganicImpressions : Option ℤ
  top20OrganicChangePct : Option ℚ
  restSearchImpressions : Option ℤ
  totalSearchImpressions : Option ℤ
  nonSearchPromotedImpressions : Option ℤ
  nonSearchPromotedChangePct : Option ℚ
  nonSearchOrganicImpressions : Option ℤ
  nonSearchOrganicChangePct : Option ℚ
  totalPromotedImpressions : Option ℤ
  totalOffsiteImpressions : Option ℤ
  totalOrganicImpressions : Option ℤ
  totalPageViews : Option ℤ
  pageViewsPromoted : Option ℤ
  pageViewsPromotedOffsite : Option ℤ
  pageViewsOrganic : Option ℤ
  pageViewsOrganicOffsite : Option ℤ
deriving DecidableEq, Repr

/-- `csvParser.js` `buildListing(raw)`: map the cleaned cell values (accessed
by exact header name) to the typed record. -/
def buildListing (raw : String → Option String) : ParsedListing :=
  { title := (raw "Listing title").getD ""
    itemId := (raw "eBay item ID").getD ""
    startDate := (raw "Item Start Date").getD ""
    category := (raw "Category").getD ""
    promotedStatus := (raw "Current promoted listings status").getD ""
    isPromoted :=
      ((raw "Current promoted listings status").getD "").data.map Char.toLower ==
        "promoted".data
    quantityAvailable := parseIntegerJS (raw "Quantity available")
    totalImpressions := parseIntegerJS (raw "Total impressions")
    ctr := parsePercent
      (raw "Click-through rate = Page views from eBay site/Total impressions")
    quantitySold := parseIntegerJS (raw "Quantity sold")
    top20Pct := parsePercent (raw "% Top 20 Search Impressions")
    conversionRate := parsePercent
      (raw "Sales conversion rate = Quantity sold/Total page views")
    top20PromotedImpressions := parseIntegerJS
      (raw "Top 20 search slot impressions from promoted listings")
    top20PromotedChangePct := parsePercent
      (raw "% change in top 20 search slot impressions from promoted listings")
    top20OrganicImpressions := parseIntegerJS (raw "Top 20 search slot organic impressions")
    top20OrganicChangePct := parsePercent
      (raw "% change in top 20 search slot impressions")
    restSearchImpressions := parseIntegerJS (raw "Rest of search slot impressions")
    totalSearchImpressions := parseIntegerJS (raw "Total Search Impressions")
    nonSearchPromotedImpressions := parseIntegerJS
      (raw "Non-search promoted listings impressions")
    nonSearchPromotedChangePct := parsePercent
      (raw "% Change in non-search promoted listings impressions")
    nonSearchOrganicImpressions := parseIntegerJS (raw "Non-search organic impressions")
    nonSearchOrganicChangePct := parsePercent
      (raw "% Change in non-search organic impressions")
    totalPromotedImpressions := parseIntegerJS
      (raw "Total Promoted Listings impressions (applies to eBay site only)")
    totalOffsiteImpressions := parseIntegerJS
      (raw "Total Promoted Offsite impressions (applies to off-eBay only)")
    totalOrganicImpressions := parseIntegerJS (raw "Total organic impressions on eBay site")
    totalPageViews := parseIntegerJS (raw "Total page views")
    pageViewsPromoted := parseIntegerJS
      (raw "Page views via promoted listings impressions on eBay site")
    pageViewsPromotedOffsite := parseIntegerJS
      (raw "Page views via promoted listings Impressions from outside eBay (search engines, affilliates)")
    pageViewsOrganic := parseIntegerJS
      (raw "Page views via organic impressions on eBay site")
    pageViewsOrganicOffsite := parseIntegerJS
      (raw "Page views from organic impressions outside eBay (Includes page views from search engines)") }

/-- The `raw` cell map of one data row: each header name paired with the
cleaned cell at the header's index (`raw[h] = cleanValue(fields[idx])`; a
duplicate header would keep its last assignment, hence lookups take the
last match). -/
def rowRaws (headers : List String) (fields : List (List Char)) :
    List (String × Option String) :=
  headers.enum.map (fun p => (p.2, cleanValue ((fields.get? p.1).map String.mk)))

/-- Property read on the raw cell map; an absent header name reads as
`undefined`, which every consumer treats like `null`. -/
def rawGet (raws : List (String × Option String)) (name : String) : Option String :=
  match (raws.filter (fun p => p.1 == name)).getLast? with
  | some p => p.2
  | none => none

/-- JS truthiness of a possibly-missing string. -/
def jsTruthyStr : Option String → Bool
  | some s => !(s == "")
  | none => false

/-- The loop body of `parse` for one raw line: skip blank lines, rows with
fewer than 5 fields, and rows without a truthy `Listing title` cell; build
the listing otherwise. -/
def rowToListing (headers : List String) (rawLine : List Char) : Option ParsedListing :=
  let line := trimChars rawLine
  if line.isEmpty then none
  else
    let fields := parseLine line
    if fields.length < 5 then none
    else
      let raws := rowRaws headers fields
      if jsTruthyStr (rawGet raws "Listing title") then some (buildListing (rawGet raws))
      else none

/-- The header-row predicate: `line.startsWith('Listing title')`. -/
def headerPred (line : List Char) : Bool :=
  "Listing title".data.isPrefixOf line

/-- The `ParseError` message thrown when no header row exists. -/
def parseErrorMsg : String :=
  "Could not find header row in CSV. Expected a row starting with \"Listing title\"."

/-- One iteration of `parse`'s row loop: push the row's listing when the
row is accepted. -/
def pushRow (headers : List String) (acc : List ParsedListing) (line : List Char) :
    List ParsedListing :=
  match rowToListing headers line with
  | some l => acc ++ [l]
  | none => acc

/-- `csvParser.js` `parse(csvText)`: split into lines, locate the first
header row (throw if none, modelled as `Except.error`), then fold the
remaining lines, pushing each accepted row's listing. -/
def parse (csvText : String) : Except String (List ParsedListing) :=
  let rawLines := splitLinesJS csvText.data
  match rawLines.enum.find? (fun p => headerPred p.2) with
  | none => Except.error parseErrorMsg
  | some (i, headerLine) =>
    let headers := (parseLine headerLine).map (fun f => String.mk (trimChars f))
    Except.ok ((rawLines.drop (i + 1)).foldl (pushRow headers) [])

/-- A small CSV fixture with a disclaimer row, a header row, one good data
row, one short row, and one blank row. -/
def csvEx : String :=
  "Disclaimers\nListing title,eBay item ID,Category,Quantity sold,Total impressions\nMy card,=\"123\",Sports,1,25\nshort,row\n\n"

/-! ### Health scorer (`analyzer.js` `calcHealthScore`) -/

/-- The listing fields `calcHealthScore` reads.  The trend field
`nonSearchOrganicChangePct` is read without coercion, so its `undefined`
case matters (the code only guards against `null`). -/
structure HSListing where
  totalImpressions : JNum
  ctr : JNum
  top20Pct : JNum
  nonSearchOrganicChangePct : JNum
deriving DecidableEq, Repr

/-- `Math.max(...allListings.map(l => l.totalImpressions || 0))`: `none` is
the `-Infinity` of an empty spread (which makes the `> 0` guard false). -/
def jsMaxImpr (allListings : List HSListing) : Option ℚ :=
  allListings.foldl (fun acc l =>
    match acc with
    | none => some (orZero l.totalImpressions)
    | some m => some (max m (orZero l.totalImpressions))) none

/-- `NaN`-propagating JS addition on reals (`none` is `NaN`). -/
noncomputable def jadd : Option ℝ → Option ℝ → Option ℝ
  | some a, some b => some (a + b)
  | _, _ => none

/-- `NaN`-propagating JS multiplication (no infinities arise here). -/
noncomputable def jmul : Option ℝ → Option ℝ → Option ℝ
  | some a, some b => some (a * b)
  | _, _ => none

/-- `NaN`-propagating JS division; the only divisor in this code is the
nonzero constant `200`, so the `x/0 = Infinity` case never arises. -/
noncomputable def jdivR : Option ℝ → Option ℝ → Option ℝ
  | some a, some b => some (a / b)
  | _, _ => none

/-- `Math.max` returns `NaN` if an argument is `NaN`. -/
noncomputable def jmaxR : Option ℝ → Option ℝ → Option ℝ
  | some a, some b => some (max a b)
  | _, _ => none

/-- `Math.min` returns `NaN` if an argument is `NaN`. -/
noncomputable def jminR : Option ℝ → Option ℝ → Option ℝ
  | some a, some b => some (min a b)
  | _, _ => none

/-- JS numeric coercion for arithmetic: `undefined` is `NaN`, `null` is `0`
(only reachable for `undefined` here, since the code tests `!== null`). -/
noncomputable def toNumJS : JNum → Option ℝ
  | .num q => some (q : ℝ)
  | .null => some 0
  | .undef => none

/-- `Math.round`: half up (towards `+∞`), `NaN` for `NaN`. -/
noncomputable def jround : Option ℝ → Option ℤ
  | some x => some ⌊x + 1 / 2⌋
  | none => none

/-- The impression sub-score (0-40): log-normalised against the dataset
maximum, `0` when the maximum or the listing's impressions are not
positive. -/
noncomputable def impressionScoreR (impressions : ℚ) (maxImpressions : Option ℚ) : ℝ :=
  match maxImpressions with
  | some m =>
    if 0 < m ∧ 0 < impressions then
      Real.log ((impressions : ℝ) + 1) / Real.log ((m : ℝ) + 1) * 40
    else 0
  | none => 0

/-- The CTR sub-score (0-30): `min(ctr/2.0, 1) * 30`. -/
noncomputable def ctrScoreR (ctr : ℚ) : ℝ :=
  min ((ctr : ℝ) / 2.0) 1 * 30

/-- The top-20 sub-score (0-15): `min(top20/100, 1) * 15`. -/
noncomputable def top20ScoreR (top20 : ℚ) : ℝ :=
  min ((top20 : ℝ) / 100) 1 * 15

/-- The trend sub-score: `7.5` when the signal is `null`; for a number,
`7.5 ± min(|signal|/200, 1) * 7.5`-style shifts; for `undefined` the code
enters the signed branch (`undefined !== null`), `undefined > 0` is false,
and `Math.max(undefined / 200, -1)` is `NaN`, which propagates. -/
noncomputable def trendScoreR : JNum → Option ℝ
  | JNum.null => some 7.5
  | JNum.num c =>
    if 0 < c then
      jadd (some 7.5) (jmul (jminR (jdivR (toNumJS (JNum.num c)) (some 200)) (some 1))
        (some 7.5))
    else
      jadd (some 7.5) (jmul (jmaxR (jdivR (toNumJS (JNum.num c)) (some 200)) (some (-1)))
        (some 7.5))
  | JNum.undef =>
    jadd (some 7.5) (jmul (jmaxR (jdivR (toNumJS JNum.undef) (some 200)) (some (-1)))
      (some 7.5))

/-- `analyzer.js` `calcHealthScore(listing, allListings)`: the sum of the
four sub-scores, clamped to [0, 100] and rounded.  The result is `none`
exactly when the JS code computes `NaN`. -/
noncomputable def calcHealthScore (listing : HSListing) (allListings : List HSListing) :
    Option ℤ :=
  let maxImpressions := jsMaxImpr allListings
  let impressions := orZero listing.totalImpressions
  let impressionScore := impressionScoreR impressions maxImpressions
  let ctrScore := ctrScoreR (orZero listing.ctr)
  let top20Score := top20ScoreR (orZero listing.top20Pct)
  let trendScore := trendScoreR listing.nonSearchOrganicChangePct
  let total := jadd (some (impressionScore + ctrScore + top20Score)) trendScore
  jround (jminR (some 100) (jmaxR (some 0) total))

/-- The C5 counterexample listing: an `undefined` trend field. -/
def hsUndefListing : HSListing :=
  { totalImpressions := JNum.null, ctr := JNum.null, top20Pct := JNum.null
    nonSearchOrganicChangePct := JNum.undef }

/-- A listing whose trend field is `null` (the parser's representation of a
missing percentage). -/
def hsNullListing : HSListing :=
  { totalImpressions := JNum.null, ctr := JNum.null, top20Pct := JNum.null
    nonSearchOrganicChangePct := JNum.null }

/-- A listing with 5 impressions and a `null` trend field. -/
def hsFiveListing : HSListing :=
  { totalImpressions := JNum.num 5, ctr := JNum.null, top20Pct := JNum.null
    nonSearchOrganicChangePct := JNum.null }

/-- A listing with 0 impressions and a `null` trend field. -/
def hsZeroListing : HSListing :=
  { totalImpressions := JNum.num 0, ctr := JNum.null, top20Pct := JNum.null
    nonSearchOrganicChangePct := JNum.null }

/-! ## Theorems -/

/-- C1: `pctChange` returns `null` when either input is null/undefined, `0`
when both inputs are exactly zero, `null` when the baseline alone is zero,
and `(b-a)/|a|*100` otherwise; in particular `pctChange 0 0 = 0`,
`pctChange 0 5 = null`, `pctChange 10 15 = 50`, `pctChange null 5 = null`. -/
theorem pctChange_spec :
    (∀ b, pctChange JNum.null b = none) ∧
    (∀ b, pctChange JNum.undef b = none) ∧
    (∀ a, pctChange a JNum.null = none) ∧
    (∀ a, pctChange a JNum.undef = none) ∧
    pctChange (JNum.num 0) (JNum.num 0) = some 0 ∧
    (∀ b : ℚ, b ≠ 0 → pctChange (JNum.num 0) (JNum.num b) = none) ∧
    (∀ a b : ℚ, a ≠ 0 → pctChange (JNum.num a) (JNum.num b) = some ((b - a) / |a| * 100)) ∧
    pctChange (JNum.num 0) (JNum.num 5) = none ∧
    pctChange (JNum.num 10) (JNum.num 15) = some 50 ∧
    pctChange JNum.null (JNum.num 5) = none := by
  refine ⟨fun b => by cases b <;> rfl, fun b => rfl, fun a => by cases a <;> rfl,
    fun a => by cases a <;> rfl, by norm_num [pctChange], ?_, ?_, by norm_num [pctChange],
    by norm_num [pctChange], rfl⟩
  · intro b hb
    simp [pctChange, hb]
  · intro a b ha
    simp [pctChange, ha]

/-- Witness for C1: the hypothesis-bearing conjuncts of `pctChange_spec`
applied at concrete inputs. -/
theorem pctChange_spec_witness :
    ((5:ℚ) ≠ 0 ∧ pctChange (JNum.num 0) (JNum.num 5) = none) ∧
    ((10:ℚ) ≠ 0 ∧ pctChange (JNum.num 10) (JNum.num 15) = some ((15 - 10) / |(10:ℚ)| * 100)) :=
  ⟨⟨by norm_num, pctChange_spec.2.2.2.2.2.1 5 (by norm_num)⟩,
   ⟨by norm_num, pctChange_spec.2.2.2.2.2.2.1 10 15 (by norm_num)⟩⟩

/-- Helper: whenever `calcListing` returns a result, its `shippingMethod`
field is the selected method string. -/
theorem calcListing_shippingMethod (listing : CogsListing) (settings : CogsSettings)
    (res : CogsResult) (h : calcListing listing settings = some res) :
    res.shippingMethod = selectedMethod listing settings := by
  simp only [calcListing] at h
  cases hsl : shippingLookup settings.shipping (selectedMethod listing settings) <;>
    rw [hsl] at h
  · exact Option.noConfusion h
  · obtain rfl := (Option.some.inj h).symm
    rfl

/-- C4 counterexample: the claim's concrete example is false on the code.
`calcListing({price:25, shippingOverride:"ground"}, defaultSettings)` does
not return a result with `shippingMethod = "ground"`: `"ground"` is not a
key of `settings.shipping`, so the JS code throws a `TypeError` at
`ship.postage` (modelled by `none`).  (The claim's premise is also off:
price 25 is above the default threshold 20, not below it.) -/
theorem calcListing_ground_counterexample :
    calcListing groundListing cogsDefaults = none ∧
    ¬ ∃ res, calcListing groundListing cogsDefaults = some res ∧
      res.shippingMethod = "ground" := by
  refine ⟨by decide, ?_⟩
  rintro ⟨res, h, -⟩
  rw [show calcListing groundListing cogsDefaults = none from by decide] at h
  exact Option.noConfusion h

/-- C4 (amended): the shipping method is chosen by the price threshold
(`price > threshold → "ga"`, else `"ese"`) unless the listing carries a
truthy `shippingOverride`, which always takes precedence — but the override
must be one of the configured method keys for the call to return at all.
In particular, with the default settings, an explicit override `"ese"` on a
price-25 listing beats the threshold rule (which would auto-select `"ga"`,
as 25 > 20), while the override `"ground"` of the original claim makes the
function throw. -/
theorem calcListing_override_spec :
    (∀ (listing : CogsListing) (settings : CogsSettings),
      (listing.shippingOverride = none ∨ listing.shippingOverride = some "") →
      ∀ res, calcListing listing settings = some res →
        res.shippingMethod =
          if settings.shipping.threshold < orZero listing.price then "ga" else "ese") ∧
    (∀ (listing : CogsListing) (settings : CogsSettings) (ov : String),
      listing.shippingOverride = some ov → ov ≠ "" →
      ∀ res, calcListing listing settings = some res → res.shippingMethod = ov) ∧
    (calcListing eseListing cogsDefaults).map (fun r => r.shippingMethod) = some "ese" ∧
    (calcListing autoListing cogsDefaults).map (fun r => r.shippingMethod) = some "ga" := by
  refine ⟨?_, ?_, by decide, ?_⟩
  · intro listing settings hov res h
    rw [calcListing_shippingMethod listing settings res h]
    rcases hov with hov | hov <;> simp [selectedMethod, hov]
  · intro listing settings ov hov hne res h
    rw [calcListing_shippingMethod listing settings res h]
    simp [selectedMethod, hov, hne]
  · have hm : selectedMethod autoListing cogsDefaults = "ga" := by
      norm_num [selectedMethod, autoListing, cogsDefaults, orZero]
    simp [calcListing, hm, shippingLookup]

/-- Witness for C4's amended theorem: its hypothesis-bearing conjunct applied
at a concrete input. -/
theorem calcListing_override_spec_witness :
    eseListing.shippingOverride = some "ese" ∧ "ese" ≠ "" ∧
    ∀ res, calcListing eseListing cogsDefaults = some res →
      res.shippingMethod = "ese" :=
  ⟨rfl, by decide,
   calcListing_override_spec.2.1 eseListing cogsDefaults "ese" rfl (by decide)⟩

/-- Helper: the `len-2` element of a list ending in a pair. -/
theorem get_append_pair_penultimate {α : Type} (l : List α) (p c : α)
    (i : Fin (l ++ [p, c]).length) (hi : (i : ℕ) = l.length) :
    (l ++ [p, c]).get i = p := by
  rcases i with ⟨i, hlt⟩
  simp only at hi
  subst hi
  simp only [List.get_eq_getElem]
  rw [List.getElem_append_right (le_refl _)]
  simp

/-- Helper: the `len-1` element of a list ending in a pair. -/
theorem get_append_pair_last {α : Type} (l : List α) (p c : α)
    (i : Fin (l ++ [p, c]).length) (hi : (i : ℕ) = l.length + 1) :
    (l ++ [p, c]).get i = c := by
  rcases i with ⟨i, hlt⟩
  simp only at hi
  subst hi
  simp only [List.get_eq_getElem]
  rw [List.getElem_append_right (by omega)]
  simp [show l.length + 1 - l.length = 1 from by omega]

/-- Helper: `computeListingChange` on an entry whose snapshot list ends in
the pair `p, c` yields exactly the change record of `p` and `c`. -/
theorem computeListingChange_pair (entry : TimelineEntry) (l : List Snapshot)
    (p c : Snapshot) (h : entry.snapshots = l ++ [p, c]) :
    computeListingChange entry = some (mkListingChange p c) := by
  obtain ⟨title, itemId, snaps⟩ := entry
  simp only at h
  subst h
  have hlen : (l ++ [p, c]).length = l.length + 2 := by simp
  simp only [computeListingChange]
  rw [dif_neg (by omega)]
  rw [get_append_pair_penultimate l p c _ (by simp),
      get_append_pair_last l p c _ (by simp)]

/-- C6: with at least two snapshots, `computeListingChange` compares only the
most recent two and returns the percent-changes, the raw health-score delta,
`isNewIssue` exactly on a transition into red from non-red, and `isDeclined`
exactly on green→non-green or yellow→red; for the 100→50 / green→yellow
scenario it reports `isDeclined = true`, `isNewIssue = false`,
`impressionsChange = -50`; with fewer than two snapshots it returns `null`. -/
theorem computeListingChange_spec :
    (∀ entry : TimelineEntry, entry.snapshots.length < 2 →
      computeListingChange entry = none) ∧
    (∀ (entry : TimelineEntry) (l : List Snapshot) (p c : Snapshot),
      entry.snapshots = l ++ [p, c] →
      computeListingChange entry = some (mkListingChange p c)) ∧
    (∀ (entry : TimelineEntry) (l : List Snapshot) (p c : Snapshot),
      entry.snapshots = l ++ [p, c] →
      ∀ ch, computeListingChange entry = some ch →
        (ch.isNewIssue = true ↔ (p.healthBadge ≠ "red" ∧ c.healthBadge = "red")) ∧
        (ch.isDeclined = true ↔
          ((p.healthBadge = "green" ∧ c.healthBadge ≠ "green") ∨
           (p.healthBadge = "yellow" ∧ c.healthBadge = "red")))) ∧
    (computeListingChange scenarioEntry).map
        (fun ch => (ch.isDeclined, ch.isNewIssue, ch.impressionsChange)) =
      some (true, false, some (-50)) := by
  refine ⟨?_, computeListingChange_pair, ?_, ?_⟩
  · intro entry h
    simp only [computeListingChange]
    rw [dif_pos h]
  · intro entry l p c h ch hch
    rw [computeListingChange_pair entry l p c h] at hch
    obtain rfl := (Option.some.inj hch).symm
    constructor <;> simp [mkListingChange]
  · rw [computeListingChange_pair scenarioEntry [] scenarioSnapPrev scenarioSnapCurr rfl]
    simp only [Option.map_some', mkListingChange, scenarioSnapPrev, scenarioSnapCurr]
    norm_num [pctChange]
    decide

/-- Witness for C6: the hypothesis-bearing conjuncts of
`computeListingChange_spec` applied to the concrete scenario entry. -/
theorem computeListingChange_spec_witness :
    computeListingChange scenarioEntry =
      some (mkListingChange scenarioSnapPrev scenarioSnapCurr) ∧
    ((mkListingChange scenarioSnapPrev scenarioSnapCurr).isDeclined = true ↔
      ((scenarioSnapPrev.healthBadge = "green" ∧ scenarioSnapCurr.healthBadge ≠ "green") ∨
       (scenarioSnapPrev.healthBadge = "yellow" ∧ scenarioSnapCurr.healthBadge = "red"))) ∧
    (computeListingChange { title := "t", itemId := "1", snapshots := [] } = none) := by
  refine ⟨?_, ?_, ?_⟩
  · exact computeListingChange_spec.2.1 scenarioEntry [] scenarioSnapPrev scenarioSnapCurr rfl
  · exact (computeListingChange_spec.2.2.1 scenarioEntry [] scenarioSnapPrev scenarioSnapCurr
      rfl (mkListingChange scenarioSnapPrev scenarioSnapCurr)
      (computeListingChange_spec.2.1 scenarioEntry [] scenarioSnapPrev scenarioSnapCurr
        rfl)).2
  · exact computeListingChange_spec.1 { title := "t", itemId := "1", snapshots := [] }
      (by simp)

/-- `jsInsert` permutes: inserting `x` yields `x :: l` up to order. -/
theorem jsInsert_perm {α : Type} (cmp : α → α → ℚ) (x : α) (l : List α) :
    (jsInsert cmp x l).Perm (x :: l) := by
  induction l with
  | nil => exact List.Perm.refl _
  | cons y ys ih =>
    simp only [jsInsert]
    by_cases hxy : 0 < cmp x y
    · rw [if_pos hxy]
      exact (ih.cons y).trans (List.Perm.swap x y ys)
    · rw [if_neg hxy]

/-- `jsSortBy` is a permutation of its input. -/
theorem jsSortBy_perm {α : Type} (cmp : α → α → ℚ) (l : List α) :
    (jsSortBy cmp l).Perm l := by
  induction l with
  | nil => exact List.Perm.refl _
  | cons x xs ih =>
    simp only [jsSortBy, List.foldr_cons]
    exact (jsInsert_perm cmp x _).trans (ih.cons x)

/-- Inserting into a comparator-sorted list keeps it sorted, for a total and
transitive comparator. -/
theorem jsInsert_pairwise {α : Type} (cmp : α → α → ℚ)
    (htot : ∀ a b, cmp a b ≤ 0 ∨ cmp b a ≤ 0)
    (htrans : ∀ a b c, cmp a b ≤ 0 → cmp b c ≤ 0 → cmp a c ≤ 0)
    (x : α) (l : List α) (h : l.Pairwise (fun a b => cmp a b ≤ 0)) :
    (jsInsert cmp x l).Pairwise (fun a b => cmp a b ≤ 0) := by
  induction l with
  | nil => simp [jsInsert]
  | cons y ys ih =>
    rcases List.pairwise_cons.1 h with ⟨hy, hys⟩
    simp only [jsInsert]
    by_cases hxy : 0 < cmp x y
    · rw [if_pos hxy]
      refine List.pairwise_cons.2 ⟨?_, ih hys⟩
      intro z hz
      rcases List.mem_cons.1 ((jsInsert_perm cmp x ys).mem_iff.1 hz) with rfl | hz
      · rcases htot z y with hzy | hyz
        · linarith
        · exact hyz
      · exact hy z hz
    · rw [if_neg hxy]
      have hxy' : cmp x y ≤ 0 := not_lt.1 hxy
      refine List.pairwise_cons.2 ⟨?_, h⟩
      intro z hz
      rcases List.mem_cons.1 hz with rfl | hz
      · exact hxy'
      · exact htrans x y z hxy' (hy z hz)

/-- The output of `jsSortBy` is sorted for a total, transitive comparator. -/
theorem jsSortBy_pairwise {α : Type} (cmp : α → α → ℚ)
    (htot : ∀ a b, cmp a b ≤ 0 ∨ cmp b a ≤ 0)
    (htrans : ∀ a b c, cmp a b ≤ 0 → cmp b c ≤ 0 → cmp a c ≤ 0)
    (l : List α) : (jsSortBy cmp l).Pairwise (fun a b => cmp a b ≤ 0) := by
  induction l with
  | nil => simp [jsSortBy]
  | cons x xs ih =>
    simp only [jsSortBy, List.foldr_cons]
    exact jsInsert_pairwise cmp htot htrans x _ ih

/-- `assocGet` misses exactly when the key is absent. -/
theorem assocGet_eq_none_iff {α : Type} (m : List (String × α)) (k : String) :
    assocGet m k = none ↔ k ∉ m.map Prod.fst := by
  simp only [assocGet, Option.map_eq_none', List.find?_eq_none, List.mem_map]
  constructor
  · rintro h ⟨p, hp, rfl⟩
    exact absurd (beq_self_eq_true p.1) (h p hp)
  · intro h p hp hk
    exact h ⟨p, hp, beq_iff_eq.1 hk⟩

/-- `assocGet` hits exactly when the key is present. -/
theorem assocGet_isSome_iff {α : Type} (m : List (String × α)) (k : String) :
    (assocGet m k).isSome = true ↔ k ∈ m.map Prod.fst := by
  rw [← not_iff_not]
  simp only [Bool.not_eq_true, Option.not_isSome, Option.isNone_iff_eq_none]
  exact assocGet_eq_none_iff m k

/-- Updating an existing key leaves the key list unchanged. -/
theorem keys_assocSet_of_mem {α : Type} (m : List (String × α)) (k : String) (v : α)
    (h : m.any (fun p => p.1 == k) = true) :
    (assocSet m k v).map Prod.fst = m.map Prod.fst := by
  simp only [assocSet, if_pos h, List.map_map]
  apply List.map_congr_left
  intro p _
  simp only [Function.comp]
  by_cases hk : p.1 == k
  · simp only [if_pos hk]
    exact (beq_iff_eq.1 hk).symm
  · simp [hk]

/-- Key membership after a JS object assignment. -/
theorem mem_keys_assocSet {α : Type} (m : List (String × α)) (k : String) (v : α)
    (id : String) :
    id ∈ (assocSet m k v).map Prod.fst ↔ (id ∈ m.map Prod.fst ∨ id = k) := by
  by_cases h : m.any (fun p => p.1 == k) = true
  · rw [keys_assocSet_of_mem m k v h]
    have hk : k ∈ m.map Prod.fst := by
      rcases List.any_eq_true.1 h with ⟨p, hp, hpk⟩
      exact List.mem_map.2 ⟨p, hp, beq_iff_eq.1 hpk⟩
    constructor
    · exact Or.inl
    · rintro (h' | rfl)
      · exact h'
      · exact hk
  · simp [assocSet, if_neg h]

/-- JS object assignment preserves key distinctness. -/
theorem nodup_keys_assocSet {α : Type} (m : List (String × α)) (k : String) (v : α)
    (h : (m.map Prod.fst).Nodup) : ((assocSet m k v).map Prod.fst).Nodup := by
  by_cases hmem : m.any (fun p => p.1 == k) = true
  · rw [keys_assocSet_of_mem m k v hmem]
    exact h
  · simp only [assocSet, if_neg hmem, List.map_append, List.map_cons, List.map_nil]
    rw [List.nodup_append]
    refine ⟨h, List.nodup_singleton k, ?_⟩
    intro a ha hb
    simp only [List.mem_singleton] at hb
    subst hb
    rcases List.mem_map.1 ha with ⟨p, hp, rfl⟩
    exact hmem (List.any_eq_true.2 ⟨p, hp, beq_self_eq_true p.1⟩)

/-- Key membership in `buildMap`: exactly the truthy item ids of the data. -/
theorem mem_keys_buildMap (data : List RawListing) (id : String) :
    id ∈ (buildMap data).map Prod.fst ↔ (id ≠ "" ∧ ∃ l ∈ data, l.itemId = id) := by
  suffices h : ∀ m : List (String × RawListing),
      (id ∈ (data.foldl (fun m l => if l.itemId = "" then m else assocSet m l.itemId l) m).map
        Prod.fst ↔ (id ∈ m.map Prod.fst ∨ (id ≠ "" ∧ ∃ l ∈ data, l.itemId = id))) by
    simpa using h []
  induction data with
  | nil => simp
  | cons l ls ih =>
    intro m
    simp only [List.foldl_cons]
    by_cases hl : l.itemId = ""
    · rw [if_pos hl, ih m]
      constructor
      · rintro (h | h)
        · exact Or.inl h
        · exact Or.inr ⟨h.1, h.2.imp (fun x hx => ⟨List.mem_cons_of_mem l hx.1, hx.2⟩)⟩
      · rintro (h | ⟨hne, x, hx, rfl⟩)
        · exact Or.inl h
        · rcases List.mem_cons.1 hx with rfl | hx
          · exact absurd hl hne
          · exact Or.inr ⟨hne, x, hx, rfl⟩
    · rw [if_neg hl, ih (assocSet m l.itemId l)]
      rw [mem_keys_assocSet]
      constructor
      · rintro ((h | rfl) | h)
        · exact Or.inl h
        · exact Or.inr ⟨hl, l, List.mem_cons_self l ls, rfl⟩
        · exact Or.inr ⟨h.1, h.2.imp (fun x hx => ⟨List.mem_cons_of_mem l hx.1, hx.2⟩)⟩
      · rintro (h | ⟨hne, x, hx, rfl⟩)
        · exact Or.inl (Or.inl h)
        · rcases List.mem_cons.1 hx with rfl | hx
          · exact Or.inl (Or.inr rfl)
          · exact Or.inr ⟨hne, x, hx, rfl⟩

/-- `dedupKeysFirst` keeps exactly the members of its input. -/
theorem mem_dedupKeysFirst (ks : List String) (id : String) :
    id ∈ dedupKeysFirst ks ↔ id ∈ ks := by
  suffices h : ∀ acc : List String,
      (id ∈ ks.foldl (fun acc k => if acc.contains k then acc else acc ++ [k]) acc ↔
        id ∈ acc ∨ id ∈ ks) by
    simpa [dedupKeysFirst] using h []
  induction ks with
  | nil => simp
  | cons k ks ih =>
    intro acc
    simp only [List.foldl_cons]
    by_cases hk : acc.contains k
    · rw [if_pos hk, ih acc]
      constructor
      · rintro (h | h)
        · exact Or.inl h
        · exact Or.inr (List.mem_cons_of_mem k h)
      · rintro (h | h)
        · exact Or.inl h
        · rcases List.mem_cons.1 h with rfl | h
          · exact Or.inl (by simpa using hk)
          · exact Or.inr h
    · rw [if_neg hk, ih (acc ++ [k])]
      simp only [List.mem_append, List.mem_singleton, List.mem_cons]
      tauto

/-- `dedupKeysFirst` produces a duplicate-free list. -/
theorem nodup_dedupKeysFirst (ks : List String) : (dedupKeysFirst ks).Nodup := by
  suffices h : ∀ acc : List String, acc.Nodup →
      (ks.foldl (fun acc k => if acc.contains k then acc else acc ++ [k]) acc).Nodup by
    exact h [] List.nodup_nil
  induction ks with
  | nil => intro acc h; simpa using h
  | cons k ks ih =>
    intro acc hacc
    simp only [List.foldl_cons]
    by_cases hk : acc.contains k
    · rw [if_pos hk]; exact ih acc hacc
    · rw [if_neg hk]
      refine ih (acc ++ [k]) ?_
      rw [List.nodup_append]
      refine ⟨hacc, List.nodup_singleton k, ?_⟩
      intro a ha hb
      simp only [List.mem_singleton] at hb
      subst hb
      exact hk (by simpa using ha)

/-- Helper: no comparison row is simultaneously new and delisted. -/
theorem buildComparison_flags_exclusive (r1 r2 : Option Report) :
    ∀ row ∈ buildComparison r1 r2, ¬(row.isNew = true ∧ row.isDelisted = true) := by
  intro row hrow
  match r1, r2 with
  | none, none => simp [buildComparison] at hrow
  | none, some r => simp [buildComparison] at hrow
  | some r, none => simp [buildComparison] at hrow
  | some ra, some rb =>
    have hperm := jsSortBy_perm cmpRowCmp
      ((dedupKeysFirst ((buildMap (dataOf ra)).map Prod.fst ++
          (buildMap (dataOf rb)).map Prod.fst)).map
        (cmpRowOf (buildMap (dataOf ra)) (buildMap (dataOf rb))))
    rcases List.mem_map.1 (hperm.mem_iff.1 hrow) with ⟨id, -, rfl⟩
    rcases hg1 : assocGet (buildMap (dataOf ra)) id with _ | l1 <;>
      rcases hg2 : assocGet (buildMap (dataOf rb)) id with _ | l2 <;>
        simp [cmpRowOf, hg1, hg2]

/-- Helper: `hasItem` coincides with presence in the id-keyed map. -/
theorem hasItem_iff_isSome (r : Report) (id : String) :
    hasItem r id ↔ (assocGet (buildMap (dataOf r)) id).isSome = true := by
  rw [assocGet_isSome_iff, mem_keys_buildMap]
  simp [hasItem]

/-- C2: every row of `buildComparison(A, B)` is classified as exactly one of
new (id absent in A), delisted (id absent in B), or continuing (present in
both); no row is two of these at once, the row ids are pairwise distinct,
and they are exactly the truthy item ids present in A or B. -/
theorem buildComparison_partition (r1 r2 : Report) :
    (((buildComparison (some r1) (some r2)).map CmpRow.itemId).Nodup) ∧
    (∀ id, id ∈ (buildComparison (some r1) (some r2)).map CmpRow.itemId ↔
      (hasItem r1 id ∨ hasItem r2 id)) ∧
    (∀ row ∈ buildComparison (some r1) (some r2),
      (row.isNew = true ↔ (¬ hasItem r1 row.itemId ∧ hasItem r2 row.itemId)) ∧
      (row.isDelisted = true ↔ (hasItem r1 row.itemId ∧ ¬ hasItem r2 row.itemId)) ∧
      ((row.isNew = false ∧ row.isDelisted = false) ↔
        (hasItem r1 row.itemId ∧ hasItem r2 row.itemId)) ∧
      ¬(row.isNew = true ∧ row.isDelisted = true)) := by
  have hperm : (buildComparison (some r1) (some r2)).Perm
      ((dedupKeysFirst ((buildMap (dataOf r1)).map Prod.fst ++
          (buildMap (dataOf r2)).map Prod.fst)).map
        (cmpRowOf (buildMap (dataOf r1)) (buildMap (dataOf r2)))) :=
    jsSortBy_perm _ _
  have hmapitem : ((buildComparison (some r1) (some r2)).map CmpRow.itemId).Perm
      (dedupKeysFirst ((buildMap (dataOf r1)).map Prod.fst ++
        (buildMap (dataOf r2)).map Prod.fst)) := by
    have h := hperm.map CmpRow.itemId
    rwa [List.map_map, show CmpRow.itemId ∘
        cmpRowOf (buildMap (dataOf r1)) (buildMap (dataOf r2)) = id from rfl,
      List.map_id] at h
  refine ⟨hmapitem.nodup_iff.2 (nodup_dedupKeysFirst _), ?_, ?_⟩
  · intro id
    rw [hmapitem.mem_iff, mem_dedupKeysFirst, List.mem_append,
      mem_keys_buildMap, mem_keys_buildMap]
    simp [hasItem]
  · intro row hrow
    rcases List.mem_map.1 (hperm.mem_iff.1 hrow) with ⟨id, hid, rfl⟩
    have hidmem : id ∈ (buildMap (dataOf r1)).map Prod.fst ∨
        id ∈ (buildMap (dataOf r2)).map Prod.fst := by
      simpa [List.mem_append] using (mem_dedupKeysFirst _ id).1 hid
    have h1 := hasItem_iff_isSome r1 id
    have h2 := hasItem_iff_isSome r2 id
    rcases hg1 : assocGet (buildMap (dataOf r1)) id with _ | l1 <;>
      rcases hg2 : assocGet (buildMap (dataOf r2)) id with _ | l2
    · exfalso
      rcases hidmem with hmem | hmem
      · rw [← assocGet_isSome_iff, hg1] at hmem
        simp at hmem
      · rw [← assocGet_isSome_iff, hg2] at hmem
        simp at hmem
    all_goals rw [hg1] at h1; rw [hg2] at h2
    all_goals simp_all [cmpRowOf]

/-- Witness for C2: the per-row classification of `buildComparison_partition`
applied to a concrete delisted row. -/
theorem buildComparison_partition_witness :
    (cmpRowOf (buildMap (dataOf cmpReportA)) (buildMap (dataOf cmpReportB))
        "900000000001") ∈ buildComparison (some cmpReportA) (some cmpReportB) ∧
    ((cmpRowOf (buildMap (dataOf cmpReportA)) (buildMap (dataOf cmpReportB))
        "900000000001").isDelisted = true ↔
      (hasItem cmpReportA "900000000001" ∧ ¬ hasItem cmpReportB "900000000001")) := by
  have hmem : (cmpRowOf (buildMap (dataOf cmpReportA)) (buildMap (dataOf cmpReportB))
      "900000000001") ∈ buildComparison (some cmpReportA) (some cmpReportB) := by decide
  exact ⟨hmem, ((buildComparison_partition cmpReportA cmpReportB).2.2 _ hmem).2.1⟩

/-- Characterization of a non-positive comparator value. -/
theorem cmpRowCmp_nonpos_iff (a b : CmpRow) : cmpRowCmp a b ≤ 0 ↔
    ((a.isNew = false ∧ b.isNew = true) ∨
     (a.isNew = b.isNew ∧ a.isDelisted = false ∧ b.isDelisted = true) ∨
     (a.isNew = b.isNew ∧ a.isDelisted = b.isDelisted ∧
       |b.impressionsChange.getD 0| ≤ |a.impressionsChange.getD 0|)) := by
  cases ha : a.isNew <;> cases hb : b.isNew <;>
    cases hc : a.isDelisted <;> cases hd : b.isDelisted <;>
      simp [cmpRowCmp, ha, hb, hc, hd, sub_nonpos]

/-- The comparator is total. -/
theorem cmpRowCmp_total (a b : CmpRow) : cmpRowCmp a b ≤ 0 ∨ cmpRowCmp b a ≤ 0 := by
  rw [cmpRowCmp_nonpos_iff, cmpRowCmp_nonpos_iff]
  cases ha : a.isNew <;> cases hb : b.isNew <;>
    cases hc : a.isDelisted <;> cases hd : b.isDelisted <;> simp <;>
      exact le_total _ _

/-- The non-positive-comparator relation is transitive. -/
theorem cmpRowCmp_trans (a b c : CmpRow) (hab : cmpRowCmp a b ≤ 0)
    (hbc : cmpRowCmp b c ≤ 0) : cmpRowCmp a c ≤ 0 := by
  rw [cmpRowCmp_nonpos_iff] at hab hbc ⊢
  cases ha : a.isNew <;> cases hb : b.isNew <;> cases hc2 : c.isNew <;>
    cases had : a.isDelisted <;> cases hbd : b.isDelisted <;> cases hcd : c.isDelisted <;>
      simp_all <;> linarith

/-- C3 (amended): in `buildComparison`'s output the continuing rows come
first, sorted by absolute impressions percent-change descending; the
delisted rows follow; the new rows come last — i.e. the code pushes
delisted rows before new rows at the end, not new before delisted as the
claim states. -/
theorem buildComparison_ordering (r1 r2 : Option Report) :
    (buildComparison r1 r2).Pairwise rowOrder := by
  have hsorted : (buildComparison r1 r2).Pairwise (fun a b => cmpRowCmp a b ≤ 0) := by
    match r1, r2 with
    | none, none => simp [buildComparison]
    | none, some r => simp [buildComparison]
    | some r, none => simp [buildComparison]
    | some ra, some rb => exact jsSortBy_pairwise cmpRowCmp cmpRowCmp_total cmpRowCmp_trans _
  refine List.Pairwise.imp_of_mem ?_ hsorted
  intro a b hma hmb hab
  have hea := buildComparison_flags_exclusive r1 r2 a hma
  have heb := buildComparison_flags_exclusive r1 r2 b hmb
  rw [cmpRowCmp_nonpos_iff] at hab
  unfold rowOrder rowRank
  cases ha : a.isNew <;> cases hb : b.isNew <;>
    cases hc : a.isDelisted <;> cases hd : b.isDelisted <;> simp_all

/-- C3 counterexample: with a report A containing only item 900000000001 and
a report B containing only item 900000000002, the output row order is
[delisted, new] — the delisted row comes first, so the claim's "new rows
before delisted rows" is false on the code. -/
theorem buildComparison_order_counterexample :
    (buildComparison (some cmpReportA) (some cmpReportB)).map
        (fun r => (r.itemId, r.isNew, r.isDelisted)) =
      [("900000000001", false, true), ("900000000002", true, false)] ∧
    ¬(∀ (i j : ℕ) (hi : i < (buildComparison (some cmpReportA) (some cmpReportB)).length)
        (hj : j < (buildComparison (some cmpReportA) (some cmpReportB)).length),
        ((buildComparison (some cmpReportA) (some cmpReportB)).get ⟨i, hi⟩).isNew = true →
        ((buildComparison (some cmpReportA) (some cmpReportB)).get ⟨j, hj⟩).isDelisted = true →
        i < j) := by
  refine ⟨by decide, ?_⟩
  intro h
  have := h 1 0 (by decide) (by decide) (by decide) (by decide)
  omega

/-- Members of `assocSet m k v` come from `m` or are the new pair. -/
theorem mem_assocSet {α : Type} (m : List (String × α)) (k : String) (v : α) :
    ∀ p ∈ assocSet m k v, p ∈ m ∨ p = (k, v) := by
  intro p hp
  unfold assocSet at hp
  by_cases h : m.any (fun q => q.1 == k) = true
  · rw [if_pos h] at hp
    rcases List.mem_map.1 hp with ⟨q, hq, rfl⟩
    by_cases hqk : (q.1 == k) = true
    · rw [if_pos hqk]
      exact Or.inr rfl
    · rw [if_neg hqk]
      exact Or.inl hq
  · rw [if_neg h] at hp
    rcases List.mem_append.1 hp with h' | h'
    · exact Or.inl h'
    · exact Or.inr (by simpa using h')

/-- A successful `assocGet` exhibits a member with the queried key. -/
theorem assocGet_mem {α : Type} (m : List (String × α)) (k : String) (v : α)
    (h : assocGet m k = some v) : (k, v) ∈ m := by
  unfold assocGet at h
  rcases hfind : List.find? (fun q => q.1 == k) m with _ | q
  · rw [hfind] at h
    simp at h
  · rw [hfind] at h
    simp only [Option.map_some', Option.some.injEq] at h
    subst h
    have hmem := List.mem_of_find?_eq_some hfind
    have hpk := List.find?_some hfind
    rcases q with ⟨a, b⟩
    simp only [beq_iff_eq] at hpk
    subst hpk
    exact hmem

/-- One `timelineStep` preserves the timeline invariant. -/
theorem timelineStep_inv (reports : List Report) (r : Report) (hr : r ∈ reports)
    (tl : List (String × TimelineEntry)) (l : RawListing) (hl : l ∈ dataOf r)
    (h : ∀ p ∈ tl, timelineEntryInv reports p) :
    ∀ p ∈ timelineStep r tl l, timelineEntryInv reports p := by
  intro p hp
  unfold timelineStep at hp
  by_cases hid : l.itemId = ""
  · rw [if_pos hid] at hp
    exact h p hp
  · rw [if_neg hid] at hp
    rcases mem_assocSet _ _ _ p hp with hmem | rfl
    · exact h p hmem
    · cases hget : assocGet tl l.itemId with
      | none =>
        simp only [hget]
        refine ⟨hid, rfl, ?_⟩
        intro snap hsnap
        simp only [List.nil_append, List.mem_singleton] at hsnap
        exact ⟨r, hr, l, hl, rfl, hsnap⟩
      | some e =>
        simp only [hget]
        have he := h (l.itemId, e) (assocGet_mem tl l.itemId e hget)
        refine ⟨hid, he.2.1, ?_⟩
        intro snap hsnap
        rcases List.mem_append.1 hsnap with hs | hs
        · exact he.2.2 snap hs
        · simp only [List.mem_singleton] at hs
          exact ⟨r, hr, l, hl, rfl, hs⟩

/-- The inner `forEach` over one report's data preserves the invariant. -/
theorem timeline_inner_inv (reports : List Report) (r : Report) (hr : r ∈ reports) :
    ∀ (data : List RawListing), (∀ x ∈ data, x ∈ dataOf r) →
    ∀ tl, (∀ p ∈ tl, timelineEntryInv reports p) →
    ∀ p ∈ data.foldl (timelineStep r) tl, timelineEntryInv reports p := by
  intro data
  induction data with
  | nil => intro _ tl h; simpa using h
  | cons x xs ih =>
    intro hsub tl h
    simp only [List.foldl_cons]
    exact ih (fun y hy => hsub y (List.mem_cons_of_mem x hy))
      (timelineStep r tl x)
      (timelineStep_inv reports r hr tl x (hsub x (List.mem_cons_self x xs)) h)

/-- The outer `forEach` over the reports preserves the invariant. -/
theorem timeline_outer_inv (reports : List Report) :
    ∀ (rs : List Report), (∀ r ∈ rs, r ∈ reports) →
    ∀ tl, (∀ p ∈ tl, timelineEntryInv reports p) →
    ∀ p ∈ rs.foldl (fun tl report => (dataOf report).foldl (timelineStep report) tl) tl,
      timelineEntryInv reports p := by
  intro rs
  induction rs with
  | nil => intro _ tl h; simpa using h
  | cons r rs ih =>
    intro hsub tl h
    simp only [List.foldl_cons]
    refine ih (fun y hy => hsub y (List.mem_cons_of_mem r hy)) _ ?_
    exact timeline_inner_inv reports r (hsub r (List.mem_cons_self r rs)) (dataOf r)
      (fun x hx => hx) tl h

/-- Key membership after one `timelineStep`. -/
theorem mem_keys_timelineStep (r : Report) (tl : List (String × TimelineEntry))
    (l : RawListing) (id : String) :
    id ∈ (timelineStep r tl l).map Prod.fst ↔
      (id ∈ tl.map Prod.fst ∨ (id = l.itemId ∧ l.itemId ≠ "")) := by
  unfold timelineStep
  by_cases hid : l.itemId = ""
  · rw [if_pos hid]
    simp [hid]
  · rw [if_neg hid]
    rw [mem_keys_assocSet]
    simp [hid]

/-- Key membership after the inner fold over one report's data. -/
theorem mem_keys_timeline_inner (r : Report) :
    ∀ (data : List RawListing) (tl : List (String × TimelineEntry)) (id : String),
    id ∈ (data.foldl (timelineStep r) tl).map Prod.fst ↔
      (id ∈ tl.map Prod.fst ∨ (id ≠ "" ∧ ∃ l ∈ data, l.itemId = id)) := by
  intro data
  induction data with
  | nil => simp
  | cons x xs ih =>
    intro tl id
    simp only [List.foldl_cons]
    rw [ih (timelineStep r tl x) id, mem_keys_timelineStep]
    constructor
    · rintro ((h | ⟨rfl, hne⟩) | ⟨hne, l, hl, rfl⟩)
      · exact Or.inl h
      · exact Or.inr ⟨hne, x, List.mem_cons_self x xs, rfl⟩
      · exact Or.inr ⟨hne, l, List.mem_cons_of_mem x hl, rfl⟩
    · rintro (h | ⟨hne, l, hl, rfl⟩)
      · exact Or.inl (Or.inl h)
      · rcases List.mem_cons.1 hl with rfl | hl
        · exact Or.inl (Or.inr ⟨rfl, hne⟩)
        · exact Or.inr ⟨hne, l, hl, rfl⟩

/-- Key membership after the outer fold over all reports. -/
theorem mem_keys_timeline_outer :
    ∀ (rs : List Report) (tl : List (String × TimelineEntry)) (id : String),
    id ∈ (rs.foldl (fun tl report => (dataOf report).foldl (timelineStep report) tl)
        tl).map Prod.fst ↔
      (id ∈ tl.map Prod.fst ∨ (id ≠ "" ∧ ∃ r ∈ rs, ∃ l ∈ dataOf r, l.itemId = id)) := by
  intro rs
  induction rs with
  | nil => simp
  | cons r rs ih =>
    intro tl id
    simp only [List.foldl_cons]
    rw [ih, mem_keys_timeline_inner]
    constructor
    · rintro ((h | ⟨hne, l, hl, rfl⟩) | ⟨hne, r', hr', l, hl, rfl⟩)
      · exact Or.inl h
      · exact Or.inr ⟨hne, r, List.mem_cons_self r rs, l, hl, rfl⟩
      · exact Or.inr ⟨hne, r', List.mem_cons_of_mem r hr', l, hl, rfl⟩
    · rintro (h | ⟨hne, r', hr', l, hl, rfl⟩)
      · exact Or.inl (Or.inl h)
      · rcases List.mem_cons.1 hr' with rfl | hr'
        · exact Or.inl (Or.inr ⟨hne, l, hl, rfl⟩)
        · exact Or.inr ⟨hne, r', hr', l, hl, rfl⟩

/-- C10: every snapshot stored by `buildListingTimeline` is the fully coerced
record of some listing of some report with that (truthy) item id — null or
missing metrics become `0` and a missing badge becomes `"red"` via
`mkSnapshot` — listings with a falsy item id are omitted, the timeline keys
are exactly the truthy item ids occurring in the reports, and on such
coerced (`num`) inputs the null-input branch of `pctChange` is never taken:
the result is `null` only in the zero-baseline case. -/
theorem buildListingTimeline_inv (reports : List Report) :
    (∀ p ∈ buildListingTimeline reports, p.1 ≠ "" ∧ p.2.itemId = p.1 ∧
      ∀ snap ∈ p.2.snapshots, ∃ r ∈ reports, ∃ l ∈ dataOf r,
        l.itemId = p.1 ∧ snap = mkSnapshot r l) ∧
    (∀ id, (∃ p ∈ buildListingTimeline reports, p.1 = id) ↔
      (id ≠ "" ∧ ∃ r ∈ reports, ∃ l ∈ dataOf r, l.itemId = id)) ∧
    (orZero JNum.null = 0 ∧ orZero JNum.undef = 0 ∧ orStr "red" none = "red" ∧
      orStr "red" (some "") = "red") ∧
    (∀ a b : ℚ, pctChange (JNum.num a) (JNum.num b) = none ↔ (a = 0 ∧ b ≠ 0)) := by
  refine ⟨?_, ?_, ⟨rfl, rfl, rfl, rfl⟩, ?_⟩
  · intro p hp
    unfold buildListingTimeline at hp
    rcases List.mem_map.1 hp with ⟨q, hq, rfl⟩
    have hinv := timeline_outer_inv reports reports (fun r hr => hr) []
      (by intro p hp; simp at hp) q hq
    refine ⟨hinv.1, hinv.2.1, ?_⟩
    intro snap hsnap
    exact hinv.2.2 snap ((jsSortBy_perm _ _).mem_iff.1 hsnap)
  · intro id
    have hkeys : (∃ p ∈ buildListingTimeline reports, p.1 = id) ↔
        id ∈ (buildListingTimeline reports).map Prod.fst := by
      constructor
      · rintro ⟨p, hp, rfl⟩
        exact List.mem_map.2 ⟨p, hp, rfl⟩
      · intro hmem
        rcases List.mem_map.1 hmem with ⟨p, hp, rfl⟩
        exact ⟨p, hp, rfl⟩
    rw [hkeys]
    unfold buildListingTimeline
    rw [List.map_map, show Prod.fst ∘ sortSnapshots = Prod.fst from rfl]
    rw [mem_keys_timeline_outer reports [] id]
    simp
  · intro a b
    unfold pctChange
    by_cases ha : a = 0 <;> by_cases hb : b = 0 <;> simp [ha, hb]

/-- Witness for C10: the invariant of `buildListingTimeline_inv` applied to
the concrete single-report timeline. -/
theorem buildListingTimeline_inv_witness :
    timelineEntryEx ∈ buildListingTimeline [cmpReportA] ∧
    (timelineEntryEx.1 ≠ "" ∧ timelineEntryEx.2.itemId = timelineEntryEx.1 ∧
      ∀ snap ∈ timelineEntryEx.2.snapshots, ∃ r ∈ [cmpReportA], ∃ l ∈ dataOf r,
        l.itemId = timelineEntryEx.1 ∧ snap = mkSnapshot r l) := by
  have hmem : timelineEntryEx ∈ buildListingTimeline [cmpReportA] := by decide
  exact ⟨hmem, (buildListingTimeline_inv [cmpReportA]).1 timelineEntryEx hmem⟩

/-- Unfolding `assocGet` over a cons cell. -/
theorem assocGet_cons {α : Type} (x : String × α) (xs : List (String × α)) (kw : String) :
    assocGet (x :: xs) kw = if (x.1 == kw) = true then some x.2 else assocGet xs kw := by
  unfold assocGet
  by_cases hx : (x.1 == kw) = true
  · rw [List.find?_cons_of_pos xs (show (fun q : String × α => q.1 == kw) x = true from hx),
      if_pos hx]
    rfl
  · rw [List.find?_cons_of_neg xs
      (show ¬(fun q : String × α => q.1 == kw) x = true from by simpa using hx), if_neg hx]

/-- The in-place update of key `k` is invisible to lookups of other keys. -/
theorem assocGet_map_update_ne {α : Type} (m : List (String × α)) (k : String) (v : α)
    (kw : String) (hne : kw ≠ k) :
    assocGet (m.map (fun p => if (p.1 == k) = true then (k, v) else p)) kw =
      assocGet m kw := by
  induction m with
  | nil => rfl
  | cons q m ih =>
    rw [List.map_cons]
    by_cases hq : (q.1 == k) = true
    · rw [if_pos hq, assocGet_cons, assocGet_cons]
      have h1 : ¬(((k, v).1 == kw) = true) := by
        simp only [beq_iff_eq]
        exact fun e => hne e.symm
      have h2 : ¬((q.1 == kw) = true) := by
        simp only [beq_iff_eq]
        intro e
        exact hne (e.symm.trans (beq_iff_eq.1 hq))
      rw [if_neg h1, if_neg h2]
      exact ih
    · rw [if_neg hq, assocGet_cons, assocGet_cons]
      by_cases hqkw : (q.1 == kw) = true
      · rw [if_pos hqkw, if_pos hqkw]
      · rw [if_neg hqkw, if_neg hqkw]
        exact ih

/-- Reading back the key just assigned. -/
theorem assocGet_assocSet_self {α : Type} (m : List (String × α)) (k : String) (v : α) :
    assocGet (assocSet m k v) k = some v := by
  unfold assocSet
  by_cases h : m.any (fun q => q.1 == k) = true
  · rw [if_pos h]
    induction m with
    | nil => simp at h
    | cons q m ih =>
      rw [List.map_cons]
      by_cases hq : (q.1 == k) = true
      · rw [if_pos hq, assocGet_cons]
        simp
      · rw [if_neg hq, assocGet_cons, if_neg hq]
        have h' : m.any (fun q => q.1 == k) = true := by
          rcases List.any_eq_true.1 h with ⟨p, hp, hpk⟩
          rcases List.mem_cons.1 hp with rfl | hp
          · exact absurd hpk hq
          · exact List.any_eq_true.2 ⟨p, hp, hpk⟩
        exact ih h'
  · rw [if_neg h]
    unfold assocGet
    rw [List.find?_append]
    have hnone : m.find? (fun q => q.1 == k) = none := by
      rw [List.find?_eq_none]
      intro p hp hpk
      exact h (List.any_eq_true.2 ⟨p, hp, hpk⟩)
    rw [hnone]
    simp

/-- Reading a different key after an assignment. -/
theorem assocGet_assocSet_ne {α : Type} (m : List (String × α)) (k : String) (v : α)
    (kw : String) (hne : kw ≠ k) : assocGet (assocSet m k v) kw = assocGet m kw := by
  unfold assocSet
  by_cases h : m.any (fun q => q.1 == k) = true
  · rw [if_pos h]
    exact assocGet_map_update_ne m k v kw hne
  · rw [if_neg h]
    unfold assocGet
    rw [List.find?_append]
    have : List.find? (fun q => q.1 == kw) [(k, v)] = none := by
      rw [List.find?_eq_none]
      intro p hp
      simp only [List.mem_singleton] at hp
      subst hp
      simp only [beq_iff_eq]
      exact fun e => hne e.symm
    rw [this]
    simp

/-- `kwBump` never changes the stored keyword. -/
theorem kwBump_keyword (l : KwListing) (e : KwAcc) : (kwBump l e).keyword = e.keyword := by
  unfold kwBump
  cases l.ctr <;> rfl

/-- `kwBump` increments `appearances` by exactly one. -/
theorem kwBump_appearances (l : KwListing) (e : KwAcc) :
    (kwBump l e).appearances = e.appearances + 1 := by
  unfold kwBump
  cases l.ctr <;> rfl

/-- Lookup after the seen-guarded fold over one listing's keyword list: a
keyword gets bumped exactly once if it occurs in the list and was not
already seen, and is untouched otherwise. -/
theorem kwFold_get (l : KwListing) :
    ∀ (kws : List String) (m : List (String × KwAcc)) (seen : List String) (kw : String),
    assocGet (kws.foldl (kwStep l) (m, seen)).1 kw =
      if kw ∈ kws ∧ kw ∉ seen
      then some (kwBump l ((assocGet m kw).getD (kwInit kw)))
      else assocGet m kw := by
  intro kws
  induction kws with
  | nil =>
    intro m seen kw
    simp
  | cons k ks ih =>
    intro m seen kw
    simp only [List.foldl_cons, kwStep]
    by_cases hk : seen.contains k = true
    · rw [if_pos hk, ih m seen kw]
      have hkmem : k ∈ seen := by simpa using hk
      by_cases hkw : kw = k
      · subst hkw
        rw [if_neg (fun h => h.2 hkmem), if_neg (fun h => h.2 hkmem)]
      · by_cases hmem : kw ∈ ks ∧ kw ∉ seen
        · rw [if_pos hmem, if_pos ⟨List.mem_cons_of_mem k hmem.1, hmem.2⟩]
        · rw [if_neg hmem, if_neg ?_]
          intro h
          rcases List.mem_cons.1 h.1 with rfl | hks
          · exact hkw rfl
          · exact hmem ⟨hks, h.2⟩
    · rw [if_neg hk, ih _ _ kw]
      have hknot : k ∉ seen := fun h => hk (by simpa using h)
      by_cases hkw : kw = k
      · subst hkw
        rw [if_neg (fun h => h.2 (List.mem_cons_self kw seen))]
        rw [if_pos ⟨List.mem_cons_self kw ks, hknot⟩]
        exact assocGet_assocSet_self m kw _
      · rw [assocGet_assocSet_ne m k _ kw hkw]
        by_cases hmem : kw ∈ ks ∧ kw ∉ seen
        · rw [if_pos ⟨hmem.1, fun h => hmem.2 (by
            rcases List.mem_cons.1 h with rfl | h
            · exact absurd rfl hkw
            · exact h)⟩]
          rw [if_pos ⟨List.mem_cons_of_mem k hmem.1, hmem.2⟩]
        · rw [if_neg ?_, if_neg ?_]
          · intro h
            rcases List.mem_cons.1 h.1 with rfl | hks
            · exact hkw rfl
            · exact hmem ⟨hks, h.2⟩
          · intro h
            exact hmem ⟨h.1, fun hs => h.2 (List.mem_cons_of_mem k hs)⟩

/-- Lookup after processing one listing: each keyword of the listing's
deduplicated token set is bumped exactly once. -/
theorem processListing_get (m : List (String × KwAcc)) (l : KwListing) (kw : String) :
    assocGet (processListing m l) kw =
      if kw ∈ extractKeywords l.title
      then some (kwBump l ((assocGet m kw).getD (kwInit kw)))
      else assocGet m kw := by
  unfold processListing
  rw [kwFold_get l (extractKeywords l.title) m [] kw]
  simp

/-- The appearances invariant of the keyword map: each entry's `appearances`
is the number of processed listings whose extracted token set contains the
keyword (not the number of occurrences). -/
theorem analyze_fold_appearances :
    ∀ (rest processed : List KwListing) (m : List (String × KwAcc)),
    (∀ kw : String,
      match assocGet m kw with
      | some acc => acc.keyword = kw ∧ acc.appearances =
          processed.countP (fun x => kw ∈ extractKeywords x.title)
      | none => processed.countP (fun x => kw ∈ extractKeywords x.title) = 0) →
    ∀ kw : String,
      match assocGet (rest.foldl processListing m) kw with
      | some acc => acc.keyword = kw ∧ acc.appearances =
          (processed ++ rest).countP (fun x => kw ∈ extractKeywords x.title)
      | none =>
          (processed ++ rest).countP (fun x => kw ∈ extractKeywords x.title) = 0 := by
  intro rest
  induction rest with
  | nil =>
    intro processed m h kw
    simpa using h kw
  | cons x rest ih =>
    intro processed m h kw0
    have hstep : ∀ kw : String,
        match assocGet (processListing m x) kw with
        | some acc => acc.keyword = kw ∧ acc.appearances =
            (processed ++ [x]).countP (fun y => kw ∈ extractKeywords y.title)
        | none =>
            (processed ++ [x]).countP (fun y => kw ∈ extractKeywords y.title) = 0 := by
      intro kw
      have hcount : (processed ++ [x]).countP (fun y => kw ∈ extractKeywords y.title) =
          processed.countP (fun y => kw ∈ extractKeywords y.title) +
            (if kw ∈ extractKeywords x.title then 1 else 0) := by
        rw [List.countP_append]
        congr 1
        by_cases hx : kw ∈ extractKeywords x.title
        · simp [List.countP_cons, hx]
        · simp [List.countP_cons, hx]
      rw [processListing_get, hcount]
      by_cases hx : kw ∈ extractKeywords x.title
      · rw [if_pos hx, if_pos hx]
        have hh := h kw
        cases hget : assocGet m kw with
        | some acc =>
          rw [hget] at hh
          simp only [Option.getD_some]
          exact ⟨(kwBump_keyword x acc).trans hh.1,
            (kwBump_appearances x acc).trans (by rw [hh.2])⟩
        | none =>
          rw [hget] at hh
          simp only [Option.getD_none]
          refine ⟨kwBump_keyword x (kwInit kw), ?_⟩
          rw [kwBump_appearances, hh]
          rfl
      · rw [if_neg hx, if_neg hx]
        have hh := h kw
        cases hget : assocGet m kw with
        | some acc =>
          rw [hget] at hh
          exact ⟨hh.1, by rw [hh.2, Nat.add_zero]⟩
        | none =>
          rw [hget] at hh
          simpa using hh
    have hres := ih (processed ++ [x]) (processListing m x) hstep kw0
    rw [List.append_assoc] at hres
    simpa using hres

/-- Keys stay duplicate-free through the seen-guarded keyword fold. -/
theorem nodup_keys_kwFold (l : KwListing) :
    ∀ (kws : List String) (st : List (String × KwAcc) × List String),
    (st.1.map Prod.fst).Nodup → (((kws.foldl (kwStep l) st).1).map Prod.fst).Nodup := by
  intro kws
  induction kws with
  | nil => intro st h; simpa using h
  | cons k ks ih =>
    intro st h
    simp only [List.foldl_cons, kwStep]
    by_cases hk : st.2.contains k = true
    · rw [if_pos hk]
      exact ih st h
    · rw [if_neg hk]
      exact ih _ (nodup_keys_assocSet st.1 k _ h)

/-- Keys stay duplicate-free through the whole accumulation. -/
theorem nodup_keys_analyze :
    ∀ (listings : List KwListing) (m : List (String × KwAcc)),
    (m.map Prod.fst).Nodup → (((listings.foldl processListing m)).map Prod.fst).Nodup := by
  intro listings
  induction listings with
  | nil => intro m h; simpa using h
  | cons x xs ih =>
    intro m h
    simp only [List.foldl_cons]
    exact ih _ (nodup_keys_kwFold x (extractKeywords x.title) (m, []) h)

/-- With duplicate-free keys, every member pair is retrievable. -/
theorem assocGet_of_mem_nodup {α : Type} :
    ∀ (m : List (String × α)), (m.map Prod.fst).Nodup →
    ∀ (k : String) (v : α), (k, v) ∈ m → assocGet m k = some v := by
  intro m
  induction m with
  | nil =>
    intro _ k v h
    simp at h
  | cons q m ih =>
    intro hnodup k v hmem
    rw [List.map_cons] at hnodup
    have hn := List.nodup_cons.1 hnodup
    rw [assocGet_cons]
    rcases List.mem_cons.1 hmem with rfl | hmem
    · simp
    · have hk : ¬((q.1 == k) = true) := by
        simp only [beq_iff_eq]
        rintro rfl
        exact hn.1 (List.mem_map.2 ⟨(q.1, v), hmem, rfl⟩)
      rw [if_neg hk]
      exact ih hn.2 k v hmem

/-- C8: `analyzeKeywords` deduplicates each listing's extracted token set
before accumulating — `appearances` counts listings containing the keyword,
not occurrences, so the repeated `PSA` token counts once — and the derived
`conversionRate` is `sold/pageViews*100` when the keyword's total page views
are positive and `null` when they are zero. -/
theorem analyzeKeywords_spec :
    (∀ (listings : List KwListing), ∀ res ∈ analyzeKeywords listings,
      res.appearances = listings.countP (fun l => res.keyword ∈ extractKeywords l.title) ∧
      (0 < res.totalPageViews →
        res.conversionRate = some (res.totalSold / res.totalPageViews * 100)) ∧
      (res.totalPageViews = 0 → res.conversionRate = none)) ∧
    extractKeywords psaListing.title = ["psa", "psa", "10"] ∧
    (∀ res ∈ analyzeKeywords [psaListing], res.keyword = "psa" → res.appearances = 1) := by
  have hmain : ∀ (listings : List KwListing), ∀ res ∈ analyzeKeywords listings,
      res.appearances = listings.countP (fun l => res.keyword ∈ extractKeywords l.title) ∧
      (0 < res.totalPageViews →
        res.conversionRate = some (res.totalSold / res.totalPageViews * 100)) ∧
      (res.totalPageViews = 0 → res.conversionRate = none) := by
    intro listings res hres
    unfold analyzeKeywords at hres
    by_cases hemp : listings.isEmpty
    · rw [if_pos hemp] at hres
      simp at hres
    · rw [if_neg hemp] at hres
      have hres' := (jsSortBy_perm _ _).mem_iff.1 hres
      rcases List.mem_map.1 hres' with ⟨p, hp, rfl⟩
      have hnodup := nodup_keys_analyze listings [] (by simp)
      have hget : assocGet (listings.foldl processListing []) p.1 = some p.2 :=
        assocGet_of_mem_nodup _ hnodup p.1 p.2 hp
      have hinv := analyze_fold_appearances listings [] [] (by intro kw; simp [assocGet]) p.1
      rw [hget] at hinv
      obtain ⟨hkw, happ⟩ := hinv
      rw [List.nil_append] at happ
      refine ⟨?_, ?_, ?_⟩
      · show (finishKw p.2).appearances = _
        have hfk : (finishKw p.2).keyword = p.1 := hkw
        have hfa : (finishKw p.2).appearances = p.2.appearances := rfl
        rw [hfa, hfk, happ]
      · intro h0
        have h0' : 0 < p.2.totalPageViews := h0
        show (finishKw p.2).conversionRate = _
        simp only [finishKw, if_pos h0']
      · intro h0
        have h0' : p.2.totalPageViews = 0 := h0
        show (finishKw p.2).conversionRate = none
        simp only [finishKw, h0', lt_irrefl, if_false]
  refine ⟨hmain, ?_, ?_⟩
  · decide
  · intro res hres hkw
    have h := (hmain [psaListing] res hres).1
    rw [hkw] at h
    rw [h]
    decide

/-- Witness for C8: the `psa` aggregate of the repeated-token listing is in
the output and its `appearances` is the (deduplicated) listing count 1. -/
theorem analyzeKeywords_spec_witness :
    finishKw (kwBump psaListing (kwInit "psa")) ∈ analyzeKeywords [psaListing] ∧
    (finishKw (kwBump psaListing (kwInit "psa"))).appearances =
      [psaListing].countP (fun l =>
        (finishKw (kwBump psaListing (kwInit "psa"))).keyword ∈
          extractKeywords l.title) := by
  have hm : [psaListing].foldl processListing [] =
      [("psa", kwBump psaListing (kwInit "psa")), ("10", kwBump psaListing (kwInit "10"))] :=
    rfl
  have hmem : finishKw (kwBump psaListing (kwInit "psa")) ∈ analyzeKeywords [psaListing] := by
    unfold analyzeKeywords
    rw [if_neg (by decide)]
    refine (jsSortBy_perm _ _).mem_iff.2 ?_
    rw [hm]
    exact List.mem_map.2 ⟨("psa", kwBump psaListing (kwInit "psa")), by simp, rfl⟩
  exact ⟨hmem, (analyzeKeywords_spec.1 [psaListing] _ hmem).1⟩

/-- The push-style fold of `parse`'s row loop is `filterMap`. -/
theorem foldl_pushRow_filterMap (headers : List String) :
    ∀ (l : List (List Char)) (acc : List ParsedListing),
    l.foldl (pushRow headers) acc = acc ++ l.filterMap (rowToListing headers) := by
  intro l
  induction l with
  | nil => intro acc; simp
  | cons x xs ih =>
    intro acc
    simp only [List.foldl_cons, List.filterMap_cons, pushRow]
    cases hfx : rowToListing headers x with
    | none => rw [ih acc]
    | some y => rw [ih (acc ++ [y])]; simp

/-- C7: `parse` throws its parse error exactly when no input line starts
with `"Listing title"`; when a header row exists, the result is the
partial-success parse of all following lines, where a row is dropped (not
fatal) exactly when it is blank after trimming, has fewer than 5 fields, or
lacks a truthy `Listing title` cell — and every surviving row is parsed
into a listing. -/
theorem parse_spec :
    (∀ csvText : String,
      ((∃ e, parse csvText = Except.error e) ↔
        ∀ line ∈ splitLinesJS csvText.data, headerPred line = false)) ∧
    (∀ (csvText : String) (i : ℕ) (headerLine : List Char),
      (splitLinesJS csvText.data).enum.find? (fun p => headerPred p.2) =
        some (i, headerLine) →
      parse csvText = Except.ok
        (((splitLinesJS csvText.data).drop (i + 1)).filterMap
          (rowToListing ((parseLine headerLine).map (fun f => String.mk (trimChars f)))))) ∧
    (∀ (headers : List String) (rawLine : List Char),
      ((trimChars rawLine).isEmpty = true ∨
       (parseLine (trimChars rawLine)).length < 5 ∨
       jsTruthyStr (rawGet (rowRaws headers (parseLine (trimChars rawLine)))
         "Listing title") = false) →
      rowToListing headers rawLine = none) ∧
    (∀ (headers : List String) (rawLine : List Char) (l : ParsedListing),
      rowToListing headers rawLine = some l →
      l = buildListing (rawGet (rowRaws headers (parseLine (trimChars rawLine))))) := by
  refine ⟨?_, ?_, ?_, ?_⟩
  · intro csvText
    simp only [parse]
    cases hfind : (splitLinesJS csvText.data).enum.find? (fun p => headerPred p.2) with
    | none =>
      constructor
      · intro _
        rw [List.find?_eq_none] at hfind
        intro line hline
        have hmem : (∃ i, (i, line) ∈ (splitLinesJS csvText.data).enum) := by
          rcases List.mem_iff_get.1 hline with ⟨n, hn⟩
          exact ⟨n, by simpa using List.mem_enum_iff_getElem?.2 (by simp [← hn])⟩
        rcases hmem with ⟨i, hi⟩
        simpa using hfind (i, line) hi
      · intro _
        exact ⟨parseErrorMsg, rfl⟩
    | some p =>
      rcases p with ⟨i, headerLine⟩
      constructor
      · rintro ⟨e, he⟩
        exact Except.noConfusion he
      · intro hall
        have hmem := List.find?_some hfind
        have hline : headerLine ∈ splitLinesJS csvText.data := by
          have := List.mem_of_find?_eq_some hfind
          have h2 : headerLine ∈ (splitLinesJS csvText.data).enum.map Prod.snd :=
            List.mem_map.2 ⟨(i, headerLine), this, rfl⟩
          simpa [List.enum_map_snd] using h2
        have := hall headerLine hline
        rw [this] at hmem
        exact Bool.noConfusion hmem
  · intro csvText i headerLine hfind
    simp only [parse]
    rw [hfind]
    show Except.ok (((splitLinesJS csvText.data).drop (i + 1)).foldl
      (pushRow ((parseLine headerLine).map (fun f => String.mk (trimChars f)))) []) = _
    rw [foldl_pushRow_filterMap, List.nil_append]
  · intro headers rawLine h
    unfold rowToListing
    by_cases he : (trimChars rawLine).isEmpty = true
    · rw [if_pos he]
    · rw [if_neg he]
      by_cases h5 : (parseLine (trimChars rawLine)).length < 5
      · rw [if_pos h5]
      · rw [if_neg h5]
        rcases h with h | h | h
        · exact absurd h he
        · exact absurd h h5
        · rw [if_neg (by rw [h]; exact Bool.false_ne_true)]
  · intro headers rawLine l h
    unfold rowToListing at h
    by_cases he : (trimChars rawLine).isEmpty = true
    · rw [if_pos he] at h
      exact Option.noConfusion h
    · rw [if_neg he] at h
      by_cases h5 : (parseLine (trimChars rawLine)).length < 5
      · rw [if_pos h5] at h
        exact Option.noConfusion h
      · rw [if_neg h5] at h
        by_cases ht : jsTruthyStr (rawGet (rowRaws headers (parseLine (trimChars rawLine)))
            "Listing title") = true
        · rw [if_pos ht] at h
          exact (Option.some.inj h).symm
        · rw [if_neg ht] at h
          exact Option.noConfusion h

/-- Witness for C7: the header of the concrete fixture sits at index 1 and
`parse` succeeds with the partial-success row parse of the following lines. -/
theorem parse_spec_witness :
    (splitLinesJS csvEx.data).enum.find? (fun p => headerPred p.2) =
      some (1, "Listing title,eBay item ID,Category,Quantity sold,Total impressions".data) ∧
    parse csvEx = Except.ok
      (((splitLinesJS csvEx.data).drop (1 + 1)).filterMap
        (rowToListing ((parseLine
          "Listing title,eBay item ID,Category,Quantity sold,Total impressions".data).map
            (fun f => String.mk (trimChars f))))) := by
  have h : (splitLinesJS csvEx.data).enum.find? (fun p => headerPred p.2) =
      some (1, "Listing title,eBay item ID,Category,Quantity sold,Total impressions".data) := by
    decide
  exact ⟨h, parse_spec.2.1 csvEx 1 _ h⟩

/-- A non-`undefined` trend signal yields a real (non-`NaN`) trend score. -/
theorem trendScoreR_some (oc : JNum) (h : oc ≠ JNum.undef) :
    ∃ t : ℝ, trendScoreR oc = some t := by
  cases oc with
  | null => exact ⟨7.5, rfl⟩
  | num c =>
    by_cases hc : 0 < c
    · exact ⟨7.5 + min ((c : ℝ) / 200) 1 * 7.5,
        by simp [trendScoreR, hc, jadd, jmul, jminR, jdivR, toNumJS]⟩
    · exact ⟨7.5 + max ((c : ℝ) / 200) (-1) * 7.5,
        by simp [trendScoreR, hc, jadd, jmul, jmaxR, jdivR, toNumJS]⟩
  | undef => exact absurd rfl h

/-- `calcHealthScore` with a real trend score: the clamped, rounded sum. -/
theorem calcHealthScore_some (l : HSListing) (ds : List HSListing) (t : ℝ)
    (ht : trendScoreR l.nonSearchOrganicChangePct = some t) :
    calcHealthScore l ds =
      some ⌊min 100 (max 0 (impressionScoreR (orZero l.totalImpressions) (jsMaxImpr ds) +
        ctrScoreR (orZero l.ctr) + top20ScoreR (orZero l.top20Pct) + t)) + 1 / 2⌋ := by
  simp [calcHealthScore, ht, jadd, jmaxR, jminR, jround]

/-- `calcHealthScore` with a `NaN` trend score: `NaN` all the way out. -/
theorem calcHealthScore_none (l : HSListing) (ds : List HSListing)
    (ht : trendScoreR l.nonSearchOrganicChangePct = none) :
    calcHealthScore l ds = none := by
  simp [calcHealthScore, ht, jadd, jmaxR, jminR, jround]

/-- C5 counterexample: with an `undefined` `nonSearchOrganicChangePct` — the
case the claim explicitly includes — `calcHealthScore` returns `NaN`
(modelled `none`), not an integer in [0, 100]: the code guards only
`!== null`, so `undefined / 200` poisons the trend term. -/
theorem calcHealthScore_undef_counterexample :
    calcHealthScore hsUndefListing [hsUndefListing] = none ∧
    ¬ ∃ n : ℤ, calcHealthScore hsUndefListing [hsUndefListing] = some n ∧
      0 ≤ n ∧ n ≤ 100 := by
  have h : calcHealthScore hsUndefListing [hsUndefListing] = none :=
    calcHealthScore_none _ _ rfl
  refine ⟨h, ?_⟩
  rintro ⟨n, hn, -⟩
  rw [h] at hn
  exact Option.noConfusion hn

/-- The clamp-and-round always lands in [0, 100]. -/
theorem floor_clamp_bounds (x : ℝ) :
    0 ≤ ⌊min 100 (max 0 x) + 1 / 2⌋ ∧ ⌊min 100 (max 0 x) + 1 / 2⌋ ≤ (100 : ℤ) := by
  constructor
  · apply Int.le_floor.2
    have h0 : (0 : ℝ) ≤ min 100 (max 0 x) := le_min (by norm_num) (le_max_left 0 x)
    push_cast
    linarith
  · have hlt : ⌊min 100 (max 0 x) + 1 / 2⌋ < 101 := by
      apply Int.floor_lt.2
      have := min_le_left (100 : ℝ) (max 0 x)
      push_cast
      linarith
    omega

/-- C5 (amended): `calcHealthScore` returns an integer in [0, 100] for every
listing whose trend field is a number or `null` — including a zero dataset
maximum and an empty listing collection; only an `undefined` trend field
(which the parser never produces: missing percentages parse to `null`)
makes it return `NaN`. -/
theorem calcHealthScore_range (listing : HSListing) (allListings : List HSListing)
    (h : listing.nonSearchOrganicChangePct ≠ JNum.undef) :
    ∃ n : ℤ, calcHealthScore listing allListings = some n ∧ 0 ≤ n ∧ n ≤ 100 := by
  obtain ⟨t, ht⟩ := trendScoreR_some _ h
  rw [calcHealthScore_some listing allListings t ht]
  exact ⟨_, rfl, (floor_clamp_bounds _).1, (floor_clamp_bounds _).2⟩

/-- Witness for C5's amended theorem at a concrete listing with a `null`
trend field and an empty dataset. -/
theorem calcHealthScore_range_witness :
    hsNullListing.nonSearchOrganicChangePct ≠ JNum.undef ∧
    ∃ n : ℤ, calcHealthScore hsNullListing [] = some n ∧ 0 ≤ n ∧ n ≤ 100 :=
  ⟨by decide, calcHealthScore_range hsNullListing [] (by decide)⟩

/-- The impression sub-score is monotone in the listing's impressions. -/
theorem impressionScoreR_mono (m : Option ℚ) (i1 i2 : ℚ) (h : i1 ≤ i2) :
    impressionScoreR i1 m ≤ impressionScoreR i2 m := by
  cases m with
  | none => exact le_refl 0
  | some mq =>
    simp only [impressionScoreR]
    have hcast : (i1 : ℝ) ≤ (i2 : ℝ) := by exact_mod_cast h
    by_cases hm : 0 < mq
    · have hm' : (0 : ℝ) < (mq : ℝ) := by exact_mod_cast hm
      have hlog : 0 < Real.log ((mq : ℝ) + 1) := Real.log_pos (by linarith)
      by_cases h1 : 0 < i1
      · have h2 : 0 < i2 := lt_of_lt_of_le h1 h
        have h1' : (0 : ℝ) < (i1 : ℝ) := by exact_mod_cast h1
        have h2' : (0 : ℝ) < (i2 : ℝ) := by exact_mod_cast h2
        rw [if_pos ⟨hm, h1⟩, if_pos ⟨hm, h2⟩]
        have hle : Real.log ((i1 : ℝ) + 1) ≤ Real.log ((i2 : ℝ) + 1) := by
          rw [Real.log_le_log_iff (by linarith) (by linarith)]
          linarith
        exact mul_le_mul_of_nonneg_right ((div_le_div_iff_of_pos_right hlog).2 hle) (by norm_num)
      · rw [if_neg (fun hh => h1 hh.2)]
        by_cases h2 : 0 < i2
        · have h2' : (0 : ℝ) < (i2 : ℝ) := by exact_mod_cast h2
          rw [if_pos ⟨hm, h2⟩]
          have hnum : 0 ≤ Real.log ((i2 : ℝ) + 1) := Real.log_nonneg (by linarith)
          exact mul_nonneg (div_nonneg hnum hlog.le) (by norm_num)
        · rw [if_neg (fun hh => h2 hh.2)]
    · rw [if_neg (fun hh => hm hh.1), if_neg (fun hh => hm hh.1)]

/-- C9: `calcHealthScore` is monotone non-decreasing in the listing's
impressions, holding every other listing field and the dataset (hence its
maximum) fixed: whenever both scores are defined, the score at the smaller
impression count is at most the score at the larger one. -/
theorem calcHealthScore_mono (i1 i2 ctr top20 oc : JNum) (ds : List HSListing)
    (h : orZero i1 ≤ orZero i2) :
    ∀ s1 ∈ calcHealthScore ⟨i1, ctr, top20, oc⟩ ds,
    ∀ s2 ∈ calcHealthScore ⟨i2, ctr, top20, oc⟩ ds, s1 ≤ s2 := by
  intro s1 hs1 s2 hs2
  cases htr : trendScoreR oc with
  | none =>
    rw [Option.mem_def, calcHealthScore_none _ ds htr] at hs1
    exact Option.noConfusion hs1
  | some t =>
    rw [Option.mem_def, calcHealthScore_some _ ds t htr, Option.some.injEq] at hs1 hs2
    subst hs1
    subst hs2
    apply Int.floor_le_floor
    have him := impressionScoreR_mono (jsMaxImpr ds) (orZero i1) (orZero i2) h
    have hmm : (max 0 (impressionScoreR (orZero i1) (jsMaxImpr ds) +
        ctrScoreR (orZero ctr) + top20ScoreR (orZero top20) + t) : ℝ) ≤
        max 0 (impressionScoreR (orZero i2) (jsMaxImpr ds) +
          ctrScoreR (orZero ctr) + top20ScoreR (orZero top20) + t) :=
      max_le_max (le_refl 0) (by linarith)
    have := min_le_min (le_refl (100 : ℝ)) hmm
    linarith

/-- Concrete score of a zero-metric listing over an empty dataset: the
neutral trend term alone, clamped and rounded to 8. -/
theorem calcHealthScore_hsZero : calcHealthScore hsZeroListing [] = some 8 := by
  rw [calcHealthScore_some hsZeroListing [] 7.5 rfl]
  congr 1
  have hsum : (impressionScoreR (orZero hsZeroListing.totalImpressions) (jsMaxImpr []) +
      ctrScoreR (orZero hsZeroListing.ctr) + top20ScoreR (orZero hsZeroListing.top20Pct) +
      7.5 : ℝ) = 7.5 := by
    norm_num [impressionScoreR, ctrScoreR, top20ScoreR, jsMaxImpr, hsZeroListing, orZero]
  rw [hsum]
  rw [show (max 0 (7.5 : ℝ)) = 7.5 from by norm_num,
    show (min 100 (7.5 : ℝ)) = 7.5 from by norm_num]
  rw [show ((7.5 : ℝ) + 1 / 2) = ((8 : ℤ) : ℝ) from by norm_num]
  exact Int.floor_intCast 8

/-- Concrete score of the five-impression listing over an empty dataset:
the empty dataset maximum is `-Infinity`, so the impression term is 0 and
the score is again 8. -/
theorem calcHealthScore_hsFive : calcHealthScore hsFiveListing [] = some 8 := by
  rw [calcHealthScore_some hsFiveListing [] 7.5 rfl]
  congr 1
  have hsum : (impressionScoreR (orZero hsFiveListing.totalImpressions) (jsMaxImpr []) +
      ctrScoreR (orZero hsFiveListing.ctr) + top20ScoreR (orZero hsFiveListing.top20Pct) +
      7.5 : ℝ) = 7.5 := by
    norm_num [impressionScoreR, ctrScoreR, top20ScoreR, jsMaxImpr, hsFiveListing, orZero]
  rw [hsum]
  rw [show (max 0 (7.5 : ℝ)) = 7.5 from by norm_num,
    show (min 100 (7.5 : ℝ)) = 7.5 from by norm_num]
  rw [show ((7.5 : ℝ) + 1 / 2) = ((8 : ℤ) : ℝ) from by norm_num]
  exact Int.floor_intCast 8

/-- Witness for C9: `calcHealthScore_mono` applied at impressions 0 ≤ 5 with
all other fields null and an empty dataset. -/
theorem calcHealthScore_mono_witness :
    orZero (JNum.num 0) ≤ orZero (JNum.num 5) ∧
    calcHealthScore hsZeroListing [] = some 8 ∧
    calcHealthScore hsFiveListing [] = some 8 ∧
    (8 : ℤ) ≤ 8 := by
  refine ⟨by norm_num [orZero], calcHealthScore_hsZero, calcHealthScore_hsFive, ?_⟩
  exact calcHealthScore_mono (JNum.num 0) (JNum.num 5) JNum.null JNum.null JNum.null []
    (by norm_num [orZero]) 8 (Option.mem_def.2 calcHealthScore_hsZero)
    8 (Option.mem_def.2 calcHealthScore_hsFive)
